import Mathlib

set_option maxRecDepth 100000

/-!
Verification development for the tetris_cpp repository (src/tetris.cpp).

The C++ simulation core is shallowly embedded:
* `SDL_Point` becomes `Point` (machine `int` coordinates become `Int`; none of
  the verified operations can overflow 32-bit range, the only place where the
  C++ integer width is observable is the `static_cast<size_t>` in
  `Board::location_to_index`, embedded as an explicit `% 2 ^ 64`).
* `std::vector<bool> data` becomes `List Bool`.
* fallible code (the `throw` in `Piece::get_world_parts` for an invalid
  rotation, and loops of the source that need not terminate:
  `Piece::add_offset`, the spawn shift-down loop in
  `GameMode::choose_new_piece`) is embedded with `Option` results; loops
  carry explicit fuel, `none` models the exception / non-termination.
* `float` timers (`delta_time`, `current_fall_time`, `current_new_piece_time`)
  are embedded as `ℚ`; the delays `1.0F` and `1.5F` are exactly representable
  and every verified statement about the timers only uses `+`, `>` and
  resetting to zero, where float and rational arithmetic agree on the claims
  at issue.
* rendering (`Board::tick` drawing, colors, SDL calls) mutates no simulation
  state in the source and is omitted.
-/

/-- Embeds `SDL_Point` (tetris.cpp uses it for grid coordinates and offsets). -/
structure Point where
  x : Int
  y : Int
deriving DecidableEq, Repr

/-- Embeds `struct Piece` of tetris.cpp: shape parts, world location, rotation.
(The `rotation` member is the `int` used by `get_world_parts` /
`handle_input`; `parts` is the shared shape template.) -/
structure Piece where
  parts : List Point
  location : Point
  rotation : Int
deriving DecidableEq, Repr

/-- Embeds `class Board` of tetris.cpp: the linear `std::vector<bool> data`. -/
structure Board where
  data : List Bool
deriving DecidableEq, Repr

/-- `Board::width` (tetris.hpp: `constexpr static const int width = 10`). -/
def Board.width : Int := 10

/-- `Board::height` (tetris.hpp: `constexpr static const int height = 21`). -/
def Board.height : Int := 21

/-- The modulus `2^64` of the C++ `static_cast<size_t>` conversion. -/
def twoPow64 : Int := 2 ^ 64

/-- Embeds `Board::location_to_index`:
`static_cast<size_t>(loc.y * width + loc.x)`.  The `int` value is converted
to `size_t`, i.e. reduced modulo `2^64` (negative values wrap to huge
indices). -/
def Board.location_to_index (loc : Point) : Nat :=
  ((loc.y * Board.width + loc.x) % twoPow64).toNat

/-- Embeds `Board::get_value_at`: returns the cell if
`location_to_index(loc) < data.size()`, else an empty optional. -/
def Board.get_value_at (b : Board) (loc : Point) : Option Bool :=
  b.data[Board.location_to_index loc]?

/-- Embeds `Board::set_value_at`: writes the cell and returns `true` if the
index is in range, else leaves the board unchanged and returns `false`. -/
def Board.set_value_at (b : Board) (loc : Point) (v : Bool) : Board × Bool :=
  if Board.location_to_index loc < b.data.length then
    (⟨b.data.set (Board.location_to_index loc) v⟩, true)
  else (b, false)

/-- Embeds `Board::Board()`: `data.assign(width * height, false)`. -/
def Board.initial : Board := ⟨List.replicate (10 * 21) false⟩

/-- Embeds the rotation `switch` inside `Piece::get_world_parts`:
cases 0..3 rotate the reference part, the `default` case throws
(`none` here). -/
def rotate_point (rotation : Int) (p : Point) : Option Point :=
  if rotation = 0 then some ⟨p.x, p.y⟩
  else if rotation = 1 then some ⟨p.y, -p.x⟩
  else if rotation = 2 then some ⟨-p.x, -p.y⟩
  else if rotation = 3 then some ⟨-p.y, p.x⟩
  else none

/-- The `std::transform` of `Piece::get_world_parts`: rotate the parts in
order; `none` models the exception thrown on the first part if the rotation
is invalid. -/
def rotate_parts (r : Int) : List Point → Option (List Point)
  | [] => some []
  | q :: rest =>
    match rotate_point r q with
    | none => none
    | some v => (rotate_parts r rest).map fun vs => v :: vs

/-- Embeds `Piece::get_world_parts`: rotate every part, then add the world
origin offset `location`.  `none` models the `std::runtime_error` thrown for
a rotation outside 0..3. -/
def Piece.get_world_parts (p : Piece) : Option (List Point) :=
  (rotate_parts p.rotation p.parts).map
    (List.map fun loc => ⟨loc.x + p.location.x, loc.y + p.location.y⟩)

/-- Embeds `Piece::has_collision`: `!all_of(parts, in-bounds && not occupied)`
against the (global) board.  `none` models the propagated rotation
exception. -/
def Piece.has_collision (p : Piece) (b : Board) : Option Bool :=
  (p.get_world_parts).map fun parts =>
    !(parts.all fun loc =>
      decide (0 ≤ loc.x) && decide (loc.x < Board.width) &&
      decide (0 ≤ loc.y) && decide (loc.y < Board.height) &&
      !((b.get_value_at loc).getD false))

/-- One single-axis unit step of `Piece::add_offset`: move the location by
`d`, test `has_collision`; on collision undo that step (return the original
piece with `false`), else keep it (`true`). -/
def axis_step (b : Board) (p : Piece) (d : Point) : Option (Piece × Bool) :=
  let p1 : Piece := { p with location := ⟨p.location.x + d.x, p.location.y + d.y⟩ }
  match p1.has_collision b with
  | none => none
  | some true => some (p, false)
  | some false => some (p1, true)

/-- Embeds the `while (!(offset.x == 0 && offset.y == 0))` loop of
`Piece::add_offset`.  Each fuel unit is one loop iteration; `sweep` is the
pair of unit step signs computed once at entry.  Note the source guards each
axis by `sweep.x != 0` / `sweep.y != 0` (the entry signs), not by the
remaining offset on that axis. -/
def add_offset_loop (b : Board) : Nat → Piece → Point → Point → Option (Piece × Bool)
  | 0, _, _, _ => none
  | fuel + 1, p, sweep, off =>
    if off.x = 0 ∧ off.y = 0 then some (p, true)
    else
      match (if sweep.x = 0 then some (p, off, true) else
        (axis_step b p ⟨sweep.x, 0⟩).map fun r =>
          (r.1, if r.2 then (⟨off.x - sweep.x, off.y⟩ : Point) else off, r.2)) with
      | none => none
      | some (p1, _, false) => some (p1, false)
      | some (p1, off1, true) =>
        match (if sweep.y = 0 then some (p1, off1, true) else
          (axis_step b p1 ⟨0, sweep.y⟩).map fun r =>
            (r.1, if r.2 then (⟨off1.x, off1.y - sweep.y⟩ : Point) else off1, r.2)) with
        | none => none
        | some (p2, _, false) => some (p2, false)
        | some (p2, off2, true) => add_offset_loop b fuel p2 sweep off2

/-- The sign expression of the `sweep` initializer in `Piece::add_offset`:
`offset < 0 ? -1 : offset > 0 ? 1 : 0`. -/
def sweep_sign (z : Int) : Int := if z < 0 then -1 else if z > 0 then 1 else 0

/-- Embeds `Piece::add_offset(offset)`: computes the per-axis unit step signs
once, then runs the sweep loop.  `fuel` bounds the number of loop
iterations (the C++ loop can fail to terminate; see the development notes). -/
def Piece.add_offset (fuel : Nat) (b : Board) (p : Piece) (off : Point) :
    Option (Piece × Bool) :=
  add_offset_loop b fuel p ⟨sweep_sign off.x, sweep_sign off.y⟩ off

/-- Embeds `Board::stamp_values`: `set_value_at` for every world part of the
piece.  `none` models the rotation exception thrown by `get_world_parts`
(in the source the exception aborts `stamp_values` before any write). -/
def Board.stamp_values (b : Board) (p : Piece) (v : Bool) : Option Board :=
  (p.get_world_parts).map fun parts =>
    parts.foldl (fun bb q => (bb.set_value_at q v).1) b

/-- Embeds the completeness test of the first loop in
`Board::try_eliminate_rows`: row `y` is complete when no `x` in `[0, width)`
has an empty cell (`!get_value_at(loc).value_or(false)`). -/
def row_complete (b : Board) (y : Int) : Bool :=
  (List.range 10).all fun x => (b.get_value_at ⟨(x : Int), y⟩).getD false

/-- The `complete_rows` vector collected by the first loop of
`Board::try_eliminate_rows` (row indices 0..height-1, in ascending order). -/
def complete_rows (b : Board) : List Nat :=
  (List.range 21).filter fun y => row_complete b ((y : Nat) : Int)

/-- `data.erase(begin + i, begin + i + n)` on a `List`. -/
def erase_range (l : List Bool) (i n : Nat) : List Bool :=
  l.take i ++ l.drop (i + n)

/-- `data.resize(n, false)` on a `List`: truncate or pad with `false` to
length `n`. -/
def resize_to (l : List Bool) (n : Nat) : List Bool :=
  l.take n ++ List.replicate (n - l.length) false

/-- Embeds the elimination loop of `Board::try_eliminate_rows`: for each
completed row index (ascending), erase the `width` cells of that row at its
shifted position (`row_index - shift_down`), incrementing `shift_down`. -/
def erase_rows_go : List Bool → List Nat → Nat → List Bool
  | data, [], _ => data
  | data, y :: ys, shift =>
    erase_rows_go
      (erase_range data (Board.location_to_index ⟨0, (y : Int) - (shift : Int)⟩) 10)
      ys (shift + 1)

/-- Embeds `Board::try_eliminate_rows`: collect the complete rows of the
current board, then (when any exist) erase them and resize back to
`width * height`; returns the new board and `complete_rows.size()`. -/
def Board.try_eliminate_rows (b : Board) : Board × Nat :=
  let cr := complete_rows b
  if cr.isEmpty then (b, cr.length)
  else (⟨resize_to (erase_rows_go b.data cr 0) (10 * 21)⟩, cr.length)

/-- The snapshot of the four control states consumed by
`GameMode::handle_input` (`SDL_SCANCODE_DOWN/LEFT/RIGHT/UP`). -/
structure Input where
  down : Bool
  left : Bool
  right : Bool
  up : Bool
deriving DecidableEq, Repr

/-- `GameMode::fall_delay = 1.F` (exactly representable; timers are embedded
as rationals). -/
def fall_delay : ℚ := 1

/-- `GameMode::new_piece_delay = 1.5F`. -/
def new_piece_delay : ℚ := 3 / 2

/-- Fuel used for the unit-offset `add_offset` calls made by the game loop
(`{0,-1}`, `{-1,0}`, `{1, 0}`); a unit offset consumes at most two loop
iterations, so this fuel never runs out on those calls. -/
def gameFuel : Nat := 4

/-- Fuel for the spawn shift-down loop of `GameMode::choose_new_piece`; the
loop moves `location.y` down from `height` by one per iteration, and any
collision-free placement has all cells in `[-?, height)`, so 64 iterations
are more than any terminating run of the source loop uses. -/
def spawnFuel : Nat := 64

/-- The `pieces` template catalog of tetris.cpp (lines 27-33); each template
has `location = {0,0}` and `rotation = 0`. -/
def piecesCatalog : List Piece :=
  [ ⟨[⟨0, 0⟩, ⟨0, 1⟩, ⟨1, 1⟩, ⟨0, 2⟩], ⟨0, 0⟩, 0⟩,
    ⟨[⟨0, 0⟩, ⟨1, 0⟩, ⟨1, -1⟩, ⟨2, -1⟩], ⟨0, 0⟩, 0⟩,
    ⟨[⟨0, 0⟩, ⟨0, 1⟩, ⟨1, 0⟩, ⟨1, 1⟩], ⟨0, 0⟩, 0⟩,
    ⟨[⟨0, 0⟩, ⟨0, 1⟩, ⟨0, 2⟩, ⟨0, 3⟩], ⟨0, 0⟩, 0⟩,
    ⟨[⟨0, 0⟩, ⟨1, 0⟩, ⟨1, 1⟩, ⟨2, 1⟩], ⟨0, 0⟩, 0⟩ ]

/-- The `while (has_collision()) location.y--;` loop of
`GameMode::choose_new_piece`, with fuel (`none` models non-termination or
the rotation exception). -/
def spawn_loop (b : Board) : Nat → Piece → Option Piece
  | 0, _ => none
  | fuel + 1, p =>
    match p.has_collision b with
    | none => none
    | some true => spawn_loop b fuel { p with location := ⟨p.location.x, p.location.y - 1⟩ }
    | some false => some p

/-- Embeds `GameMode::choose_new_piece`: copy the template selected by
`rand() % pieces.size()` (the random draw is a parameter `r`), place it at
the top center (`x = width / 2`, `y = height`), then shift down while
colliding. -/
def choose_new_piece (b : Board) (r : Nat) : Option Piece :=
  spawn_loop b spawnFuel
    { piecesCatalog.getD (r % 5) ⟨[], ⟨0, 0⟩, 0⟩ with
      location := ⟨Board.width / 2, Board.height⟩ }

/-- The `try_loop_rotation` lambda of `GameMode::handle_input`: wrap a
rotation below 0 to 3 and above 3 to 0. -/
def rotate_wrap (r : Int) : Int := if r < 0 then 3 else if r > 3 then 0 else r

/-- Embeds `GameMode::handle_input`: a held down key attempts a unit
down-move (result discarded); then `left`, `else if right`, `else if up`
(one rotation attempt with wrap / collision-revert / wrap).  The board `b`
is the global board the collision checks read. -/
def handle_input (b : Board) (inp : Input) (p : Piece) : Option Piece :=
  match (if inp.down then (Piece.add_offset gameFuel b p ⟨0, -1⟩).map Prod.fst
         else some p) with
  | none => none
  | some p1 =>
    if inp.left then (Piece.add_offset gameFuel b p1 ⟨-1, 0⟩).map Prod.fst
    else if inp.right then (Piece.add_offset gameFuel b p1 ⟨1, 0⟩).map Prod.fst
    else if inp.up then
      match Piece.has_collision { p1 with rotation := rotate_wrap (p1.rotation + 1) } b with
      | none => none
      | some true => some { p1 with rotation := rotate_wrap (rotate_wrap (p1.rotation + 1) - 1) }
      | some false => some { p1 with rotation := rotate_wrap (rotate_wrap (p1.rotation + 1)) }
    else some p1

/-- The simulation state owned by the globals of tetris.cpp: the board and
the `GameMode` members (`player_piece`, the two timers, `is_match_over`). -/
structure GameState where
  board : Board
  player_piece : Option Piece
  current_fall_time : ℚ
  current_new_piece_time : ℚ
  is_match_over : Bool
deriving DecidableEq, Repr

/-- Embeds `GameMode::can_end_match`: some cell of the row 4 below the top
(`y = height - 4`) is occupied. -/
def can_end_match (b : Board) : Bool :=
  (List.range 10).any fun i =>
    (b.get_value_at ⟨(i : Int), Board.height - 4⟩).getD false

/-- Embeds `GameMode::tick_new_piece`: accumulate the spawn timer; when it
exceeds `new_piece_delay`, reset it and choose a new piece (`r` is the
random draw used by `choose_new_piece`). -/
def tick_new_piece (r : Nat) (dt : ℚ) (st : GameState) : Option GameState :=
  let t := st.current_new_piece_time + dt
  if t > new_piece_delay then
    (choose_new_piece st.board r).map fun p =>
      { st with current_new_piece_time := 0, player_piece := some p }
  else some { st with current_new_piece_time := t }

/-- The automatic-fall section of `GameMode::tick_current_piece`: accumulate
the fall timer; when it exceeds `fall_delay`, reset it and attempt a unit
down-move, recording `has_landed` when that move fails.  Returns the new
timer, the (possibly moved) piece, and the `has_landed` flag. -/
def auto_fall (b : Board) (t dt : ℚ) (p : Piece) : Option (ℚ × Piece × Bool) :=
  if t + dt > fall_delay then
    (Piece.add_offset gameFuel b p ⟨0, -1⟩).map fun r => ((0 : ℚ), r.1, !r.2)
  else some (t + dt, p, false)

/-- Embeds `GameMode::tick_current_piece`: erase the piece's previous
footprint, run the automatic fall, run `handle_input`; if landed, stamp the
final footprint `true` and clear `player_piece`; else stamp the footprint
`true` for the renderer and immediately stamp it `false` again. -/
def tick_current_piece (dt : ℚ) (inp : Input) (st : GameState) : Option GameState :=
  match st.player_piece with
  | none => none
  | some p =>
    match st.board.stamp_values p false with
    | none => none
    | some b1 =>
      match auto_fall b1 st.current_fall_time dt p with
      | none => none
      | some (t1, p1, landed) =>
        match handle_input b1 inp p1 with
        | none => none
        | some p2 =>
          if landed then
            match b1.stamp_values p2 true with
            | none => none
            | some b2 =>
              some { st with board := b2, player_piece := none, current_fall_time := t1 }
          else
            match b1.stamp_values p2 true with
            | none => none
            | some b2 =>
              match b2.stamp_values p2 false with
              | none => none
              | some b3 =>
                some { st with board := b3, player_piece := some p2, current_fall_time := t1 }

/-- Embeds `GameMode::tick`: frozen when the match is over; else end the
match when `can_end_match`; else, with a falling piece, eliminate rows and
tick the piece; else tick the spawn timer. -/
def GameMode.tick (st : GameState) (dt : ℚ) (inp : Input) (r : Nat) :
    Option GameState :=
  if st.is_match_over then some st
  else if can_end_match st.board then some { st with is_match_over := true }
  else
    match st.player_piece with
    | some _ => tick_current_piece dt inp { st with board := (st.board.try_eliminate_rows).1 }
    | none => tick_new_piece r dt st

/-- The state set up by `main()` before the first frame: a fresh board and a
`GameMode` with default members, on which `choose_new_piece` has run once
(`r` is that first random draw). -/
def init_state (r : Nat) : Option GameState :=
  (choose_new_piece Board.initial r).map fun p =>
    ⟨Board.initial, some p, 0, 0, false⟩

/-- The states reachable by the simulation: an initial state, or any state
produced from a reachable one by one `GameMode::tick` (over every elapsed
time, input snapshot and random draw). -/
inductive Reachable : GameState → Prop
  | init (r : Nat) (st : GameState) : init_state r = some st → Reachable st
  | step (st st' : GameState) (dt : ℚ) (inp : Input) (r : Nat) :
      Reachable st → GameMode.tick st dt inp r = some st' → Reachable st'

/-- A `Board` mutation of the public interface, for stating the storage-size
invariant over arbitrary operation sequences.  The `stampOp` case applies
`stamp_values` when it is defined; the rotation exception aborts the source
`stamp_values` before any write, so the board is unchanged in that case. -/
inductive BoardOp
  | stampOp (p : Piece) (v : Bool)
  | setOp (loc : Point) (v : Bool)
  | elimOp
deriving Repr

/-- Apply one `BoardOp` to a board. -/
def applyOp (b : Board) : BoardOp → Board
  | .stampOp p v => (b.stamp_values p v).getD b
  | .setOp loc v => (b.set_value_at loc v).1
  | .elimOp => (b.try_eliminate_rows).1

/-- Apply a sequence of `BoardOp`s left to right. -/
def applyOps (ops : List BoardOp) (b : Board) : Board :=
  ops.foldl applyOp b

/-- Modelled from the spec's words for `try_move` (claim C3): decompose the
offset into unit steps per axis and repeatedly apply single-axis unit steps,
x first then y each iteration, *until the full offset is consumed* — each
axis steps only while its remaining component is nonzero.  This is the
claimed algorithm, to be compared against `add_offset_loop`, whose source
guards each axis by the entry-time sign instead. -/
def add_offset_claim_loop (b : Board) : Nat → Piece → Point → Option (Piece × Bool)
  | 0, _, _ => none
  | fuel + 1, p, off =>
    if off.x = 0 ∧ off.y = 0 then some (p, true)
    else
      match (if off.x = 0 then some (p, off, true) else
        (axis_step b p ⟨sweep_sign off.x, 0⟩).map fun r =>
          (r.1, if r.2 then (⟨off.x - sweep_sign off.x, off.y⟩ : Point) else off, r.2)) with
      | none => none
      | some (p1, _, false) => some (p1, false)
      | some (p1, off1, true) =>
        match (if off1.y = 0 then some (p1, off1, true) else
          (axis_step b p1 ⟨0, sweep_sign off1.y⟩).map fun r =>
            (r.1, if r.2 then (⟨off1.x, off1.y - sweep_sign off1.y⟩ : Point) else off1, r.2)) with
        | none => none
        | some (p2, _, false) => some (p2, false)
        | some (p2, off2, true) => add_offset_claim_loop b fuel p2 off2

/-- The claimed `try_move` algorithm (see `add_offset_claim_loop`). -/
def add_offset_claim (fuel : Nat) (b : Board) (p : Piece) (off : Point) :
    Option (Piece × Bool) :=
  add_offset_claim_loop b fuel p off

/-- Modelled from the spec's words for input handling (claim C7): each of
the four pressed controls is applied — down, left, right, and rotate are
all attempted independently when held.  To be compared against
`handle_input`, whose source chains left / right / rotate with `else if`. -/
def handle_input_claim (b : Board) (inp : Input) (p : Piece) : Option Piece :=
  match (if inp.down then (Piece.add_offset gameFuel b p ⟨0, -1⟩).map Prod.fst
         else some p) with
  | none => none
  | some p1 =>
    match (if inp.left then (Piece.add_offset gameFuel b p1 ⟨-1, 0⟩).map Prod.fst
           else some p1) with
    | none => none
    | some p2 =>
      match (if inp.right then (Piece.add_offset gameFuel b p2 ⟨1, 0⟩).map Prod.fst
             else some p2) with
      | none => none
      | some p3 =>
        if inp.up then
          match Piece.has_collision { p3 with rotation := rotate_wrap (p3.rotation + 1) } b with
          | none => none
          | some true =>
            some { p3 with rotation := rotate_wrap (rotate_wrap (p3.rotation + 1) - 1) }
          | some false => some { p3 with rotation := rotate_wrap (rotate_wrap (p3.rotation + 1)) }
        else some p3

/-- The 21 rows of a length-210 cell vector, bottom row first (row `y` holds
the cells with linear indices `[10 * y, 10 * y + 10)`). -/
def rowsOf (data : List Bool) : List (List Bool) :=
  (List.range 21).map fun y => (data.drop (10 * y)).take 10

/-- Reference form of the elimination loop on a row decomposition: remove
the rows at the given ascending original positions, adjusting each position
by the number of rows already removed. -/
def remove_positions : List (List Bool) → List Nat → Nat → List (List Bool)
  | rs, [], _ => rs
  | rs, y :: ys, s => remove_positions (rs.eraseIdx (y - s)) ys (s + 1)

/-- The state invariant maintained by `GameMode::tick`: both timers never
exceed their delays (they reset to zero whenever they fire), and the active
piece's rotation stays in 0..3. -/
def GameInv (st : GameState) : Prop :=
  st.current_fall_time ≤ fall_delay ∧
  st.current_new_piece_time ≤ new_piece_delay ∧
  ∀ p, st.player_piece = some p → 0 ≤ p.rotation ∧ p.rotation ≤ 3

/-- The ascending positions in a row list at which the predicate holds
(reference form of the `complete_rows` scan, for the elimination proof). -/
def filter_positions (rs : List (List Bool)) (P : List Bool → Bool) : List Nat :=
  (List.range rs.length).filter fun i => P (rs.getD i [])

theorem set_value_at_length (b : Board) (loc : Point) (v : Bool) :
    ((b.set_value_at loc v).1).data.length = b.data.length := by
  unfold Board.set_value_at
  split <;> simp

theorem stamp_fold_length (ps : List Point) (b : Board) (v : Bool) :
    (ps.foldl (fun bb q => (bb.set_value_at q v).1) b).data.length = b.data.length := by
  induction ps generalizing b with
  | nil => rfl
  | cons q rest ih => simpa [List.foldl_cons, set_value_at_length] using
      (ih ((b.set_value_at q v).1)).trans (set_value_at_length b q v)

theorem resize_to_length (l : List Bool) (n : Nat) : (resize_to l n).length = n := by
  unfold resize_to
  simp [List.length_take]
  omega

theorem try_eliminate_rows_length (b : Board) (h : b.data.length = 210) :
    ((b.try_eliminate_rows).1).data.length = 210 := by
  by_cases hc : (complete_rows b).isEmpty
  · simpa [Board.try_eliminate_rows, hc] using h
  · simp [Board.try_eliminate_rows, hc, resize_to_length]

theorem applyOp_length (b : Board) (op : BoardOp) (h : b.data.length = 210) :
    (applyOp b op).data.length = 210 := by
  cases op with
  | stampOp p v =>
    unfold applyOp Board.stamp_values
    cases hw : p.get_world_parts with
    | none => simpa [hw] using h
    | some parts => simpa [hw, stamp_fold_length] using h
  | setOp loc v => simpa [applyOp, set_value_at_length] using h
  | elimOp => simpa [applyOp] using try_eliminate_rows_length b h

/-- C1: starting from the freshly constructed board, every sequence of the
`Board` mutations (`stamp_values`, `set_value_at`, `try_eliminate_rows`)
leaves the cell storage with size exactly `width * height = 210`; in
particular `try_eliminate_rows` (an `elimOp` anywhere in the sequence) never
changes `data.size()`. -/
theorem C1_cells_size_invariant (ops : List BoardOp) :
    (applyOps ops Board.initial).data.length = 210 := by
  have main : ∀ (l : List BoardOp) (b : Board), b.data.length = 210 →
      (applyOps l b).data.length = 210 := by
    intro l
    induction l with
    | nil => intro b hb; simpa [applyOps] using hb
    | cons op rest ih =>
      intro b hb
      simpa [applyOps, List.foldl_cons] using ih (applyOp b op) (applyOp_length b op hb)
  exact main ops Board.initial (by simp [Board.initial])

theorem can_end_match_iff (b : Board) :
    can_end_match b = true ↔
      ∃ i : Nat, i < 10 ∧
        (b.get_value_at ⟨(i : Int), Board.height - 4⟩).getD false = true := by
  unfold can_end_match
  simp [List.any_eq_true, List.mem_range]

/-- C6: once `is_match_over` is set, `tick` changes no simulation state for
any `dt`, input or random draw; and whenever some cell of the near-top row
(`y = height - 4`) is occupied at the start of a tick of a running match,
that tick only sets `is_match_over` and performs no further action. -/
theorem C6_match_over_freeze (st : GameState) (dt : ℚ) (inp : Input) (r : Nat) :
    (st.is_match_over = true → GameMode.tick st dt inp r = some st) ∧
    (st.is_match_over = false →
      (∃ i : Nat, i < 10 ∧
        (st.board.get_value_at ⟨(i : Int), Board.height - 4⟩).getD false = true) →
      GameMode.tick st dt inp r = some { st with is_match_over := true }) := by
  constructor
  · intro h
    simp [GameMode.tick, h]
  · intro h hcell
    have hc : can_end_match st.board = true := (can_end_match_iff st.board).mpr hcell
    simp [GameMode.tick, h, hc]

theorem C6_witness :
    GameMode.tick ⟨Board.initial, none, 0, 0, true⟩ 1 ⟨false, false, false, false⟩ 0 =
        some ⟨Board.initial, none, 0, 0, true⟩ ∧
    GameMode.tick ⟨⟨(List.replicate 210 false).set 170 true⟩, none, 0, 0, false⟩ 1
        ⟨false, false, false, false⟩ 0 =
      some ⟨⟨(List.replicate 210 false).set 170 true⟩, none, 0, 0, true⟩ :=
  ⟨(C6_match_over_freeze _ 1 _ 0).1 rfl,
   (C6_match_over_freeze _ 1 _ 0).2 rfl ⟨0, by decide, by decide⟩⟩

/-- C5 (amended): while the match is running, a tick with a falling piece
invokes `try_eliminate_rows` exactly once, on the board as it is before the
piece's movement is processed; a tick with no piece runs only the spawn
logic, which never touches the board — so rows completed by a piece that
landed earlier are cleared only on the first falling tick after the next
piece has spawned, not before the spawn. -/
theorem C5_elimination_before_movement (st : GameState) (dt : ℚ) (inp : Input) (r : Nat)
    (hover : st.is_match_over = false) (hend : can_end_match st.board = false) :
    ((st.player_piece).isSome = true →
      GameMode.tick st dt inp r =
        tick_current_piece dt inp { st with board := (st.board.try_eliminate_rows).1 }) ∧
    (st.player_piece = none →
      GameMode.tick st dt inp r = tick_new_piece r dt st ∧
      ∀ st', tick_new_piece r dt st = some st' → st'.board = st.board) := by
  constructor
  · intro hp
    cases hpv : st.player_piece with
    | none => rw [hpv] at hp; exact absurd hp (by simp)
    | some p => simp [GameMode.tick, hover, hend, hpv]
  · intro hp
    refine ⟨by simp [GameMode.tick, hover, hend, hp], ?_⟩
    intro st' h
    unfold tick_new_piece at h
    by_cases ht : st.current_new_piece_time + dt > new_piece_delay
    · rw [if_pos ht] at h
      cases hc : choose_new_piece st.board r with
      | none => rw [hc] at h; simp at h
      | some p =>
        rw [hc] at h
        simp only [Option.map_some'] at h
        rw [← Option.some_inj.mp h]
    · rw [if_neg ht] at h
      rw [← Option.some_inj.mp h]

/-- C5 counterexample: with the bottom row complete and no active piece, the
tick in which the next piece spawns leaves the complete row on the board —
the rows completed by the previously landed piece are *not* cleared before
the next piece spawns. -/
theorem C5_counterexample :
    GameMode.tick
        ⟨⟨List.replicate 10 true ++ List.replicate 200 false⟩, none, 0, 7 / 5, false⟩
        (1 / 5) ⟨false, false, false, false⟩ 2 =
      some ⟨⟨List.replicate 10 true ++ List.replicate 200 false⟩,
            some ⟨[⟨0, 0⟩, ⟨0, 1⟩, ⟨1, 0⟩, ⟨1, 1⟩], ⟨5, 19⟩, 0⟩, 0, 0, false⟩ ∧
    row_complete ⟨List.replicate 10 true ++ List.replicate 200 false⟩ 0 = true := by
  constructor
  · unfold GameMode.tick
    rw [if_neg (by decide), if_neg (by decide)]
    show tick_new_piece 2 (1 / 5)
        ⟨⟨List.replicate 10 true ++ List.replicate 200 false⟩, none, 0, 7 / 5, false⟩ = _
    unfold tick_new_piece
    rw [if_pos (show ((7 : ℚ) / 5 + 1 / 5 > new_piece_delay) by norm_num [new_piece_delay])]
    rw [show choose_new_piece ⟨List.replicate 10 true ++ List.replicate 200 false⟩ 2 =
        some ⟨[⟨0, 0⟩, ⟨0, 1⟩, ⟨1, 0⟩, ⟨1, 1⟩], ⟨5, 19⟩, 0⟩ from by decide]
    rfl
  · decide

theorem C5_witness :
    GameMode.tick ⟨Board.initial, some ⟨[⟨0, 0⟩, ⟨0, 1⟩, ⟨0, 2⟩, ⟨0, 3⟩], ⟨4, 10⟩, 0⟩, 0, 0, false⟩
        1 ⟨false, false, false, false⟩ 0 =
      tick_current_piece 1 ⟨false, false, false, false⟩
        { (⟨Board.initial, some ⟨[⟨0, 0⟩, ⟨0, 1⟩, ⟨0, 2⟩, ⟨0, 3⟩], ⟨4, 10⟩, 0⟩, 0, 0,
            false⟩ : GameState) with
          board := ((Board.initial).try_eliminate_rows).1 } :=
  (C5_elimination_before_movement _ 1 _ 0 rfl (by decide)).1 rfl

theorem filter_positions_cons (r : List Bool) (rest : List (List Bool)) (P : List Bool → Bool) :
    filter_positions (r :: rest) P =
      (if P r then [0] else []) ++ (filter_positions rest P).map Nat.succ := by
  unfold filter_positions
  rw [List.length_cons, List.range_succ_eq_map, List.filter_cons, List.filter_map]
  have hc : ((fun i => P ((r :: rest).getD i [])) ∘ Nat.succ) = fun i => P (rest.getD i []) := by
    funext i
    simp [List.getD_cons_succ]
  rw [hc]
  by_cases hP : P r
  · simp [hP]
  · simp [hP]

theorem remove_positions_map_succ (ys : List Nat) (rs : List (List Bool)) (s : Nat) :
    remove_positions rs (ys.map Nat.succ) (s + 1) = remove_positions rs ys s := by
  induction ys generalizing rs s with
  | nil => rfl
  | cons y ys ih =>
    simp only [List.map_cons, remove_positions, Nat.succ_sub_succ]
    exact ih _ _

theorem remove_positions_cons_of_le (ys : List Nat) (r : List Bool) (rest : List (List Bool))
    (s : Nat) (hpw : List.Pairwise (· < ·) ys) (hs : ∀ y ∈ ys, s ≤ y) :
    remove_positions (r :: rest) (ys.map Nat.succ) s = r :: remove_positions rest ys s := by
  induction ys generalizing rest s with
  | nil => rfl
  | cons y ys ih =>
    simp only [List.map_cons, remove_positions]
    have hsy : s ≤ y := hs y (by simp)
    have hstep : Nat.succ y - s = (y - s) + 1 := by omega
    rw [hstep, List.eraseIdx_cons_succ]
    exact ih (rest.eraseIdx (y - s)) (s + 1) hpw.of_cons
      (fun y' hy' => by
        have := (List.pairwise_cons.mp hpw).1 y' hy'
        omega)

theorem remove_positions_filter (rs : List (List Bool)) (P : List Bool → Bool) :
    remove_positions rs (filter_positions rs P) 0 = rs.filter fun r => !(P r) := by
  induction rs with
  | nil => rfl
  | cons r rest ih =>
    rw [filter_positions_cons]
    by_cases hP : P r
    · rw [if_pos hP]
      show remove_positions (r :: rest) (0 :: (filter_positions rest P).map Nat.succ) 0 = _
      simp only [remove_positions, Nat.sub_zero, List.eraseIdx_cons_zero]
      rw [remove_positions_map_succ, ih, List.filter_cons_of_neg (by simp [hP])]
    · rw [if_neg hP, List.nil_append]
      have hpw : List.Pairwise (· < ·) (filter_positions rest P) :=
        (List.Pairwise.sublist (List.filter_sublist _) (List.pairwise_lt_range _))
      rw [remove_positions_cons_of_le _ _ _ _ hpw (fun y _ => Nat.zero_le y), ih,
        List.filter_cons_of_pos (by simp [hP])]

theorem filter_positions_length (rs : List (List Bool)) (P : List Bool → Bool) :
    (filter_positions rs P).length = (rs.filter P).length := by
  induction rs with
  | nil => rfl
  | cons r rest ih =>
    rw [filter_positions_cons, List.filter_cons]
    by_cases hP : P r
    · simp [hP, ih]
    · simp [hP, ih]

theorem flatten_chunks : ∀ (n : Nat) (d : List Bool), d.length = 10 * n →
    ((List.range n).map fun y => (d.drop (10 * y)).take 10).flatten = d := by
  intro n
  induction n with
  | zero =>
    intro d hd
    have : d = [] := List.length_eq_zero.mp (by omega)
    subst this
    rfl
  | succ n ih =>
    intro d hd
    rw [List.range_succ_eq_map, List.map_cons, List.flatten_cons, List.map_map]
    have hcomp : ((fun y => (d.drop (10 * y)).take 10) ∘ Nat.succ) =
        fun y => ((d.drop 10).drop (10 * y)).take 10 := by
      funext y
    
      rw [Function.comp_apply, List.drop_drop]
      congr 2
      omega
    rw [hcomp, ih (d.drop 10) (by rw [List.length_drop]; omega)]
    rw [Nat.mul_zero, List.drop_zero]
    exact List.take_append_drop 10 d

theorem rowsOf_flatten (d : List Bool) (h : d.length = 210) : (rowsOf d).flatten = d :=
  flatten_chunks 21 d (by omega)

theorem rowsOf_length (d : List Bool) : (rowsOf d).length = 21 := by
  simp [rowsOf]

theorem rowsOf_mem_length (d : List Bool) (h : d.length = 210) :
    ∀ r ∈ rowsOf d, r.length = 10 := by
  intro r hr
  unfold rowsOf at hr
  rw [List.mem_map] at hr
  obtain ⟨y, hy, rfl⟩ := hr
  rw [List.mem_range] at hy
  rw [List.length_take, List.length_drop]
  omega

theorem rowsOf_getD (d : List Bool) (y : Nat) (hy : y < 21) :
    (rowsOf d).getD y [] = (d.drop (10 * y)).take 10 := by
  unfold rowsOf
  rw [List.getD_eq_getElem _ _ (by simpa using hy)]
  rw [List.getElem_map]
  rw [List.getElem_range]

theorem location_to_index_eq (x y : Int) (hx : 0 ≤ x) (hy : 0 ≤ y)
    (hb : y * 10 + x < twoPow64) :
    Board.location_to_index ⟨x, y⟩ = (y * 10 + x).toNat := by
  show ((y * Board.width + x) % twoPow64).toNat = (y * 10 + x).toNat
  rw [show Board.width = 10 from rfl]
  rw [Int.emod_eq_of_lt (by omega) hb]

theorem twoPow64_big : (430 : Int) < twoPow64 := by
  unfold twoPow64
  norm_num

theorem get_value_at_in_range (b : Board) (x y : Int) (hx : 0 ≤ x) (hx2 : x < 10)
    (hy : 0 ≤ y) (hy2 : y < 21) :
    b.get_value_at ⟨x, y⟩ = b.data[(10 * y.toNat + x.toNat)]? := by
  unfold Board.get_value_at
  congr 1
  rw [location_to_index_eq x y hx hy (by have := twoPow64_big; omega)]
  omega

theorem take_drop_eq_map_range (d : List Bool) (y : Nat) (h : 10 * y + 10 ≤ d.length) :
    (d.drop (10 * y)).take 10 = (List.range 10).map fun x => d.getD (10 * y + x) false := by
  apply List.ext_getElem?
  intro i
  rw [List.getElem?_take, List.getElem?_drop, List.getElem?_map]
  by_cases hi : i < 10
  · rw [if_pos hi, List.getElem?_range hi]
    simp only [Option.map_some']
    rw [List.getElem?_eq_getElem (show 10 * y + i < d.length by omega)]
    rw [List.getD_eq_getElem _ _ (by omega)]
  · rw [if_neg hi]
    rw [List.getElem?_eq_none (by simpa using hi)]
    rfl

theorem row_complete_iff (b : Board) (h : b.data.length = 210) (y : Nat) (hy : y < 21) :
    row_complete b ((y : Nat) : Int) = ((rowsOf b.data).getD y []).all id := by
  have hcell : ∀ x : Nat, x < 10 →
      (b.get_value_at ⟨(x : Int), (y : Int)⟩).getD false = b.data.getD (10 * y + x) false := by
    intro x hx
    rw [get_value_at_in_range b x y (by omega) (by exact_mod_cast hx) (by omega)
      (by exact_mod_cast hy)]
    rw [List.getD_eq_getElem?_getD]
    simp
  rw [rowsOf_getD _ y hy, take_drop_eq_map_range _ _ (by omega)]
  unfold row_complete
  rw [Bool.eq_iff_iff]
  simp only [List.all_eq_true, List.mem_range, List.mem_map, id_eq, forall_exists_index, and_imp]
  constructor
  · intro H a x hx hfa
    rw [← hfa]
    rw [← hcell x hx]
    exact H x hx
  · intro H x hx
    rw [hcell x hx]
    exact H _ x hx rfl

theorem complete_rows_eq (b : Board) (h : b.data.length = 210) :
    complete_rows b = filter_positions (rowsOf b.data) fun r => r.all id := by
  unfold complete_rows filter_positions
  rw [rowsOf_length]
  exact List.filter_congr fun y hy => by
    rw [List.mem_range] at hy
    exact row_complete_iff b h y hy

theorem erase_range_flatten : ∀ (rs : List (List Bool)) (k : Nat),
    (∀ r ∈ rs, r.length = 10) →
    erase_range rs.flatten (10 * k) 10 = (rs.eraseIdx k).flatten := by
  intro rs
  induction rs with
  | nil =>
    intro k _
    simp [erase_range]
  | cons r rest ih =>
    intro k hlen
    have hr : r.length = 10 := hlen r (by simp)
    cases k with
    | zero =>
      unfold erase_range
      rw [List.flatten_cons, List.eraseIdx_cons_zero]
      rw [Nat.mul_zero, List.take_zero, List.nil_append, Nat.zero_add]
      rw [List.drop_append_eq_append_drop]
      rw [List.drop_eq_nil_of_le (by omega), List.nil_append, hr]
      rw [Nat.sub_self, List.drop_zero]
    | succ k =>
      unfold erase_range
      rw [List.flatten_cons, List.eraseIdx_cons_succ, List.flatten_cons]
      rw [List.take_append_eq_append_take, List.drop_append_eq_append_drop]
      rw [List.take_of_length_le (by omega), List.drop_eq_nil_of_le (by omega)]
      rw [List.nil_append, List.append_assoc]
      rw [show 10 * (k + 1) - r.length = 10 * k by omega]
      rw [show 10 * (k + 1) + 10 - r.length = 10 * k + 10 by omega]
      exact congrArg (r ++ ·) (ih k fun q hq => hlen q (by simp [hq]))

theorem erase_rows_go_flatten : ∀ (ys : List Nat) (rs : List (List Bool)) (s : Nat),
    (∀ r ∈ rs, r.length = 10) → List.Pairwise (· < ·) ys →
    (∀ y ∈ ys, s ≤ y ∧ y < 21 ∧ y - s < rs.length) →
    erase_rows_go rs.flatten ys s = (remove_positions rs ys s).flatten := by
  intro ys
  induction ys with
  | nil =>
    intro rs s _ _ _
    rfl
  | cons y ys ih =>
    intro rs s hlen hpw hcond
    obtain ⟨hs, hy21, hlt⟩ := hcond y (by simp)
    show erase_rows_go
        (erase_range rs.flatten (Board.location_to_index ⟨0, (y : Int) - (s : Int)⟩) 10)
        ys (s + 1) = (remove_positions (rs.eraseIdx (y - s)) ys (s + 1)).flatten
    have hcast : ((y : Int) - (s : Int)) = ((y - s : Nat) : Int) := by omega
    have hidx : Board.location_to_index ⟨0, (y : Int) - (s : Int)⟩ = 10 * (y - s) := by
      rw [hcast, location_to_index_eq 0 ((y - s : Nat) : Int) le_rfl (by omega)
        (by have := twoPow64_big; omega)]
      omega
    rw [hidx, erase_range_flatten rs (y - s) hlen]
    exact ih (rs.eraseIdx (y - s)) (s + 1)
      (fun q hq => hlen q ((rs.eraseIdx_sublist _).subset hq))
      hpw.of_cons
      (fun y' hy' => by
        have hrel := (List.pairwise_cons.mp hpw).1 y' hy'
        obtain ⟨hs', h21', hlt'⟩ := hcond y' (List.mem_cons_of_mem _ hy')
        refine ⟨by omega, h21', ?_⟩
        rw [List.length_eraseIdx, if_pos hlt]
        omega)

theorem flatten_length_of_rows (rs : List (List Bool)) (h : ∀ r ∈ rs, r.length = 10) :
    rs.flatten.length = 10 * rs.length := by
  induction rs with
  | nil => rfl
  | cons r rest ih =>
    rw [List.flatten_cons, List.length_append, h r (by simp),
      ih fun q hq => h q (by simp [hq]), List.length_cons]
    ring

theorem filter_length_split (l : List (List Bool)) (p : List Bool → Bool) :
    (l.filter p).length + (l.filter fun a => !(p a)).length = l.length := by
  induction l with
  | nil => rfl
  | cons a t ih =>
    by_cases hp : p a
    · rw [List.filter_cons_of_pos hp, List.filter_cons_of_neg (by simp [hp])]
      simp only [List.length_cons]
      omega
    · rw [List.filter_cons_of_neg hp, List.filter_cons_of_pos (by simp [hp])]
      simp only [List.length_cons]
      omega

theorem C2_try_eliminate_rows_spec (b : Board) (h : b.data.length = 210) :
    (b.try_eliminate_rows).2 = ((rowsOf b.data).filter fun r => r.all id).length ∧
    ((b.try_eliminate_rows).1).data =
      ((rowsOf b.data).filter fun r => !(r.all id)).flatten ++
        List.replicate (10 * ((rowsOf b.data).filter fun r => r.all id).length) false ∧
    ((b.try_eliminate_rows).2 = 0 → b.try_eliminate_rows = (b, 0)) := by
  have hlen21 := rowsOf_length b.data
  have hrows := rowsOf_mem_length b.data h
  have hcr := complete_rows_eq b h
  have hcnt : (complete_rows b).length =
      ((rowsOf b.data).filter fun r => r.all id).length := by
    rw [hcr, filter_positions_length]
  have hsnd : (b.try_eliminate_rows).2 = (complete_rows b).length := by
    unfold Board.try_eliminate_rows
    by_cases hE : (complete_rows b).isEmpty = true <;> simp [hE]
  refine ⟨hsnd.trans hcnt, ?_, ?_⟩
  · by_cases hE : (complete_rows b).isEmpty = true
    · have hnil : complete_rows b = [] := List.isEmpty_iff.mp hE
      have hfilP : (rowsOf b.data).filter (fun r => r.all id) = [] := by
        apply List.length_eq_zero.mp
        rw [← hcnt, hnil]
        rfl
      have hfilN : (rowsOf b.data).filter (fun r => !(r.all id)) = rowsOf b.data := by
        rw [List.filter_eq_self]
        intro r hr
        have hnot := List.filter_eq_nil_iff.mp hfilP r hr
        revert hnot
        cases r.all id <;> simp
      have hres : ((b.try_eliminate_rows).1).data = b.data := by
        unfold Board.try_eliminate_rows
        simp [hE]
      rw [hres, ← hcnt, hnil, hfilN]
      simp [rowsOf_flatten b.data h]
    · have hres : ((b.try_eliminate_rows).1).data =
          resize_to (erase_rows_go b.data (complete_rows b) 0) (10 * 21) := by
        unfold Board.try_eliminate_rows
        simp [hE]
      have hpw : List.Pairwise (· < ·) (complete_rows b) := by
        rw [hcr]
        exact List.Pairwise.sublist (List.filter_sublist _) (List.pairwise_lt_range _)
      have hmem : ∀ y ∈ complete_rows b, 0 ≤ y ∧ y < 21 ∧ y - 0 < (rowsOf b.data).length := by
        intro y hy
        rw [hcr] at hy
        unfold filter_positions at hy
        have hy2 := List.mem_range.mp (List.mem_of_mem_filter hy)
        rw [hlen21] at hy2 ⊢
        exact ⟨Nat.zero_le y, hy2, by omega⟩
      have herase : erase_rows_go b.data (complete_rows b) 0 =
          ((rowsOf b.data).filter fun r => !(r.all id)).flatten := by
        conv_lhs => rw [← rowsOf_flatten b.data h]
        rw [erase_rows_go_flatten (complete_rows b) (rowsOf b.data) 0 hrows hpw hmem]
        rw [hcr, remove_positions_filter]
      have hlenflat : (((rowsOf b.data).filter fun r => !(r.all id)).flatten).length =
          10 * ((rowsOf b.data).filter fun r => !(r.all id)).length :=
        flatten_length_of_rows _ fun r hr => hrows r (List.mem_of_mem_filter hr)
      have hsplit := filter_length_split (rowsOf b.data) fun r => r.all id
      rw [hlen21] at hsplit
      rw [hres, herase]
      unfold resize_to
      rw [List.take_of_length_le (by rw [hlenflat]; omega)]
      congr 1
      rw [hlenflat]
      congr 1
      omega
  · intro h0
    rw [hsnd] at h0
    have hnil : complete_rows b = [] := List.length_eq_zero.mp h0
    have hE : (complete_rows b).isEmpty = true := by rw [hnil]; rfl
    unfold Board.try_eliminate_rows
    simp [hE, hnil]

theorem C2_witness :
    ((⟨List.replicate 50 false ++ List.replicate 10 true ++
        List.replicate 150 false⟩ : Board).try_eliminate_rows).2 =
      ((rowsOf (List.replicate 50 false ++ List.replicate 10 true ++
        List.replicate 150 false)).filter fun r => r.all id).length ∧
    (((⟨List.replicate 50 false ++ List.replicate 10 true ++
        List.replicate 150 false⟩ : Board).try_eliminate_rows).1).data =
      ((rowsOf (List.replicate 50 false ++ List.replicate 10 true ++
        List.replicate 150 false)).filter fun r => !(r.all id)).flatten ++
        List.replicate (10 * ((rowsOf (List.replicate 50 false ++ List.replicate 10 true ++
          List.replicate 150 false)).filter fun r => r.all id).length) false ∧
    (((⟨List.replicate 50 false ++ List.replicate 10 true ++
        List.replicate 150 false⟩ : Board).try_eliminate_rows).2 = 0 →
      (⟨List.replicate 50 false ++ List.replicate 10 true ++
        List.replicate 150 false⟩ : Board).try_eliminate_rows =
        (⟨List.replicate 50 false ++ List.replicate 10 true ++
          List.replicate 150 false⟩, 0)) :=
  C2_try_eliminate_rows_spec
    ⟨List.replicate 50 false ++ List.replicate 10 true ++ List.replicate 150 false⟩
    (by decide)

theorem getD_false_eq_true_iff (o : Option Bool) : o.getD false = true ↔ o = some true := by
  cases o <;> simp

theorem collision_cell_iff (b : Board) (loc : Point) :
    ((decide (0 ≤ loc.x) && decide (loc.x < Board.width) && decide (0 ≤ loc.y) &&
       decide (loc.y < Board.height) && !((b.get_value_at loc).getD false)) = false) ↔
    ((loc.x < 0 ∨ Board.width ≤ loc.x ∨ loc.y < 0 ∨ Board.height ≤ loc.y) ∨
      b.get_value_at loc = some true) := by
  rw [← getD_false_eq_true_iff]
  cases hgd : (b.get_value_at loc).getD false
  · simp only [hgd, Bool.not_false, Bool.and_true, Bool.and_eq_false_iff, decide_eq_false_iff_not,
      not_le, not_lt, Bool.false_eq_true, or_false]
    omega
  · simp [hgd]

/-- C4: for every board and every piece whose world cells are defined,
`has_collision` is true iff some world cell is out of bounds (`x < 0`,
`x ≥ width`, `y < 0` or `y ≥ height`) or reads as an already-occupied board
cell — so an out-of-bounds cell collides regardless of board occupancy
elsewhere; and a piece with zero cells never has a collision (for any
rotation and any board). -/
theorem C4_has_collision_iff :
    (∀ (b : Board) (p : Piece) (parts : List Point),
      p.get_world_parts = some parts →
      (p.has_collision b = some true ↔
        ∃ loc ∈ parts,
          (loc.x < 0 ∨ Board.width ≤ loc.x ∨ loc.y < 0 ∨ Board.height ≤ loc.y) ∨
          b.get_value_at loc = some true)) ∧
    (∀ (b : Board) (p : Piece), p.parts = [] → p.has_collision b = some false) := by
  constructor
  · intro b p parts hw
    unfold Piece.has_collision
    rw [hw]
    simp only [Option.map_some', Option.some.injEq, Bool.not_eq_true']
    rw [List.all_eq_false]
    constructor
    · rintro ⟨loc, hmem, hcell⟩
      refine ⟨loc, hmem, ?_⟩
      rw [← collision_cell_iff]
      revert hcell
      cases (decide (0 ≤ loc.x) && decide (loc.x < Board.width) && decide (0 ≤ loc.y) &&
        decide (loc.y < Board.height) && !((b.get_value_at loc).getD false)) <;> simp
    · rintro ⟨loc, hmem, hcell⟩
      refine ⟨loc, hmem, ?_⟩
      rw [← collision_cell_iff] at hcell
      simp [hcell]
  · intro b p hp
    unfold Piece.has_collision Piece.get_world_parts
    rw [hp]
    rfl

theorem C4_witness :
    (Piece.has_collision ⟨[⟨0, 0⟩], ⟨-1, 5⟩, 0⟩ Board.initial = some true) ∧
    (Piece.has_collision ⟨[], ⟨0, 0⟩, 7⟩ Board.initial = some false) :=
  ⟨(C4_has_collision_iff.1 Board.initial ⟨[⟨0, 0⟩], ⟨-1, 5⟩, 0⟩ [⟨-1, 5⟩] (by decide)).mpr
      ⟨⟨-1, 5⟩, by simp, Or.inl (Or.inl (by decide))⟩,
   C4_has_collision_iff.2 Board.initial ⟨[], ⟨0, 0⟩, 7⟩ rfl⟩

theorem sweep_sign_eq_zero (z : Int) : sweep_sign z = 0 ↔ z = 0 := by
  unfold sweep_sign
  by_cases h1 : z < 0
  · rw [if_pos h1]
    constructor <;> intro h <;> omega
  · rw [if_neg h1]
    by_cases h2 : z > 0
    · rw [if_pos h2]
      constructor <;> intro h <;> omega
    · rw [if_neg h2]
      constructor <;> intro h <;> omega

theorem axis_step_some (b : Board) (p : Piece) (d : Point) (q : Piece) (ok : Bool)
    (h : axis_step b p d = some (q, ok)) :
    (ok = true → q = { p with location := ⟨p.location.x + d.x, p.location.y + d.y⟩ }) ∧
    (ok = false → q = p) := by
  simp only [axis_step] at h
  cases hc : Piece.has_collision
      { p with location := ⟨p.location.x + d.x, p.location.y + d.y⟩ } b with
  | none => rw [hc] at h; simp at h
  | some c =>
    rw [hc] at h
    cases c with
    | true =>
      simp only [Option.some.injEq, Prod.mk.injEq] at h
      exact ⟨fun ht => by rw [ht] at h; simp at h, fun _ => h.1.symm⟩
    | false =>
      simp only [Option.some.injEq, Prod.mk.injEq] at h
      exact ⟨fun _ => h.1.symm, fun hf => by rw [hf] at h; simp at h⟩

theorem add_offset_loop_true : ∀ (fuel : Nat) (b : Board) (p : Piece) (sweep off : Point)
    (q : Piece), add_offset_loop b fuel p sweep off = some (q, true) →
    q.parts = p.parts ∧ q.rotation = p.rotation ∧
    q.location.x = p.location.x + off.x ∧ q.location.y = p.location.y + off.y := by
  intro fuel
  induction fuel with
  | zero =>
    intro b p sweep off q hq
    exact absurd hq (by simp [add_offset_loop])
  | succ fuel ih =>
    intro b p sweep off q hq
    rw [add_offset_loop] at hq
    by_cases h0 : off.x = 0 ∧ off.y = 0
    · rw [if_pos h0] at hq
      have hpq : p = q := congrArg Prod.fst (Option.some_inj.mp hq)
      subst hpq
      exact ⟨rfl, rfl, by omega, by omega⟩
    · rw [if_neg h0] at hq
      rcases hx : (if sweep.x = 0 then some (p, off, true) else
          (axis_step b p ⟨sweep.x, 0⟩).map fun r =>
            (r.1, if r.2 then (⟨off.x - sweep.x, off.y⟩ : Point) else off, r.2)) with
        _ | ⟨p1, off1, ok1⟩
      · simp [hx] at hq
      · simp only [hx] at hq
        cases ok1 with
        | false => simp at hq
        | true =>
          have hx1 : p1.parts = p.parts ∧ p1.rotation = p.rotation ∧
              p1.location.x + off1.x = p.location.x + off.x ∧
              p1.location.y + off1.y = p.location.y + off.y := by
            by_cases hsx : sweep.x = 0
            · rw [if_pos hsx] at hx
              simp only [Option.some.injEq, Prod.mk.injEq] at hx
              obtain ⟨hp, hoff, -⟩ := hx
              subst hp
              subst hoff
              exact ⟨rfl, rfl, rfl, rfl⟩
            · rw [if_neg hsx] at hx
              cases hstep : axis_step b p ⟨sweep.x, 0⟩ with
              | none => rw [hstep] at hx; simp at hx
              | some t =>
                obtain ⟨pp, ok⟩ := t
                rw [hstep] at hx
                simp only [Option.map_some', Option.some.injEq, Prod.mk.injEq] at hx
                obtain ⟨hp1, hoff1, hok⟩ := hx
                cases ok with
                | false => simp at hok
                | true =>
                  have hmv := (axis_step_some b p ⟨sweep.x, 0⟩ pp true hstep).1 rfl
                  subst hp1
                  rw [if_pos rfl] at hoff1
                  subst hoff1
                  rw [hmv]
                  refine ⟨rfl, rfl, ?_, ?_⟩
                  · show p.location.x + sweep.x + (off.x - sweep.x) = p.location.x + off.x
                    omega
                  · show p.location.y + 0 + off.y = p.location.y + off.y
                    omega
          rcases hy : (if sweep.y = 0 then some (p1, off1, true) else
              (axis_step b p1 ⟨0, sweep.y⟩).map fun r =>
                (r.1, if r.2 then (⟨off1.x, off1.y - sweep.y⟩ : Point) else off1, r.2)) with
            _ | ⟨p2, off2, ok2⟩
          · simp [hy] at hq
          · simp only [hy] at hq
            cases ok2 with
            | false => simp at hq
            | true =>
              have hy1 : p2.parts = p1.parts ∧ p2.rotation = p1.rotation ∧
                  p2.location.x + off2.x = p1.location.x + off1.x ∧
                  p2.location.y + off2.y = p1.location.y + off1.y := by
                by_cases hsy : sweep.y = 0
                · rw [if_pos hsy] at hy
                  simp only [Option.some.injEq, Prod.mk.injEq] at hy
                  obtain ⟨hp, hoff, -⟩ := hy
                  subst hp
                  subst hoff
                  exact ⟨rfl, rfl, rfl, rfl⟩
                · rw [if_neg hsy] at hy
                  cases hstep : axis_step b p1 ⟨0, sweep.y⟩ with
                  | none => rw [hstep] at hy; simp at hy
                  | some t =>
                    obtain ⟨pp, ok⟩ := t
                    rw [hstep] at hy
                    simp only [Option.map_some', Option.some.injEq, Prod.mk.injEq] at hy
                    obtain ⟨hp2, hoff2, hok⟩ := hy
                    cases ok with
                    | false => simp at hok
                    | true =>
                      have hmv := (axis_step_some b p1 ⟨0, sweep.y⟩ pp true hstep).1 rfl
                      subst hp2
                      rw [if_pos rfl] at hoff2
                      subst hoff2
                      rw [hmv]
                      refine ⟨rfl, rfl, ?_, ?_⟩
                      · show p1.location.x + 0 + off1.x = p1.location.x + off1.x
                        omega
                      · show p1.location.y + sweep.y + (off1.y - sweep.y) = p1.location.y + off1.y
                        omega
              obtain ⟨hq1, hq2, hq3, hq4⟩ := ih b p2 sweep off2 q hq
              refine ⟨hq1.trans (hy1.1.trans hx1.1), hq2.trans (hy1.2.1.trans hx1.2.1), ?_, ?_⟩
              · rw [hq3]
                have := hy1.2.2.1
                have := hx1.2.2.1
                omega
              · rw [hq4]
                have := hy1.2.2.2
                have := hx1.2.2.2
                omega

theorem sweep_sign_spec (z : Int) :
    (z < 0 ∧ sweep_sign z = -1) ∨ (0 < z ∧ sweep_sign z = 1) ∨ (z = 0 ∧ sweep_sign z = 0) := by
  unfold sweep_sign
  by_cases h1 : z < 0
  · rw [if_pos h1]
    omega
  · rw [if_neg h1]
    by_cases h2 : z > 0
    · rw [if_pos h2]
      omega
    · rw [if_neg h2]
      omega

theorem add_offset_loop_eq_claim : ∀ (fuel : Nat) (b : Board) (p : Piece) (sweep off : Point),
    ((off.x = 0 ∧ off.y = 0) ∨
      (sweep.x = sweep_sign off.x ∧ sweep.y = sweep_sign off.y ∧
        (off.x = 0 ∨ off.y = 0 ∨ off.x.natAbs = off.y.natAbs))) →
    add_offset_loop b fuel p sweep off = add_offset_claim_loop b fuel p off := by
  intro fuel
  induction fuel with
  | zero => intro b p sweep off hinv; rfl
  | succ fuel ih =>
    intro b p sweep off hinv
    rw [add_offset_loop, add_offset_claim_loop]
    by_cases h0 : off.x = 0 ∧ off.y = 0
    · rw [if_pos h0, if_pos h0]
    · rw [if_neg h0, if_neg h0]
      obtain ⟨hswx, hswy, hclass⟩ := hinv.resolve_left h0
      have hxeq : (if sweep.x = 0 then some (p, off, true) else
          (axis_step b p ⟨sweep.x, 0⟩).map fun r =>
            (r.1, if r.2 then (⟨off.x - sweep.x, off.y⟩ : Point) else off, r.2)) =
          (if off.x = 0 then some (p, off, true) else
          (axis_step b p ⟨sweep_sign off.x, 0⟩).map fun r =>
            (r.1, if r.2 then (⟨off.x - sweep_sign off.x, off.y⟩ : Point) else off, r.2)) := by
        rw [hswx]
        by_cases hx0 : off.x = 0
        · rw [if_pos ((sweep_sign_eq_zero off.x).mpr hx0), if_pos hx0]
        · rw [if_neg fun hc => hx0 ((sweep_sign_eq_zero off.x).mp hc), if_neg hx0]
      rw [hxeq]
      rcases hx : (if off.x = 0 then some (p, off, true) else
          (axis_step b p ⟨sweep_sign off.x, 0⟩).map fun r =>
            (r.1, if r.2 then (⟨off.x - sweep_sign off.x, off.y⟩ : Point) else off, r.2)) with
        _ | ⟨p1, off1, ok1⟩
      · simp only [hx]
      · cases ok1 with
        | false => simp only [hx]
        | true =>
          simp only [hx]
          have hx1 : off1.y = off.y ∧
              ((off.x = 0 ∧ off1.x = 0) ∨
                (off.x ≠ 0 ∧ off1.x = off.x - sweep_sign off.x)) := by
            by_cases hx0 : off.x = 0
            · rw [if_pos hx0] at hx
              simp only [Option.some.injEq, Prod.mk.injEq] at hx
              obtain ⟨-, hoff, -⟩ := hx
              subst hoff
              exact ⟨rfl, Or.inl ⟨hx0, hx0⟩⟩
            · rw [if_neg hx0] at hx
              cases hstep : axis_step b p ⟨sweep_sign off.x, 0⟩ with
              | none => rw [hstep] at hx; simp at hx
              | some t =>
                obtain ⟨pp, ok⟩ := t
                rw [hstep] at hx
                simp only [Option.map_some', Option.some.injEq, Prod.mk.injEq] at hx
                obtain ⟨-, hoff1, hok⟩ := hx
                cases ok with
                | false => simp at hok
                | true =>
                  rw [if_pos rfl] at hoff1
                  subst hoff1
                  exact ⟨rfl, Or.inr ⟨hx0, rfl⟩⟩
          have hyeq : (if sweep.y = 0 then some (p1, off1, true) else
              (axis_step b p1 ⟨0, sweep.y⟩).map fun r =>
                (r.1, if r.2 then (⟨off1.x, off1.y - sweep.y⟩ : Point) else off1, r.2)) =
              (if off1.y = 0 then some (p1, off1, true) else
              (axis_step b p1 ⟨0, sweep_sign off1.y⟩).map fun r =>
                (r.1, if r.2 then (⟨off1.x, off1.y - sweep_sign off1.y⟩ : Point) else off1,
                  r.2)) := by
            have hsy : sweep.y = sweep_sign off1.y := by rw [hswy, hx1.1]
            rw [hsy]
            by_cases hy0 : off1.y = 0
            · rw [if_pos ((sweep_sign_eq_zero off1.y).mpr hy0), if_pos hy0]
            · rw [if_neg fun hc => hy0 ((sweep_sign_eq_zero off1.y).mp hc), if_neg hy0]
          rw [hyeq]
          rcases hy : (if off1.y = 0 then some (p1, off1, true) else
              (axis_step b p1 ⟨0, sweep_sign off1.y⟩).map fun r =>
                (r.1, if r.2 then (⟨off1.x, off1.y - sweep_sign off1.y⟩ : Point) else off1,
                  r.2)) with
            _ | ⟨p2, off2, ok2⟩
          · simp only [hy]
          · cases ok2 with
            | false => simp only [hy]
            | true =>
              simp only [hy]
              have hy1 : off2.x = off1.x ∧
                  ((off1.y = 0 ∧ off2.y = 0) ∨
                    (off1.y ≠ 0 ∧ off2.y = off1.y - sweep_sign off1.y)) := by
                by_cases hy0 : off1.y = 0
                · rw [if_pos hy0] at hy
                  simp only [Option.some.injEq, Prod.mk.injEq] at hy
                  obtain ⟨-, hoff, -⟩ := hy
                  subst hoff
                  exact ⟨rfl, Or.inl ⟨hy0, hy0⟩⟩
                · rw [if_neg hy0] at hy
                  cases hstep : axis_step b p1 ⟨0, sweep_sign off1.y⟩ with
                  | none => rw [hstep] at hy; simp at hy
                  | some t =>
                    obtain ⟨pp, ok⟩ := t
                    rw [hstep] at hy
                    simp only [Option.map_some', Option.some.injEq, Prod.mk.injEq] at hy
                    obtain ⟨-, hoff2, hok⟩ := hy
                    cases ok with
                    | false => simp at hok
                    | true =>
                      rw [if_pos rfl] at hoff2
                      subst hoff2
                      exact ⟨rfl, Or.inr ⟨hy0, rfl⟩⟩
              refine ih b p2 sweep off2 ?_
              have d1 := sweep_sign_spec off.x
              have d2 := sweep_sign_spec off.y
              have d3 := sweep_sign_spec off2.x
              have d4 := sweep_sign_spec off2.y
              have d5 := sweep_sign_spec off1.y
              have e1 := hx1.1
              have e2 := hx1.2
              have e3 := hy1.1
              have e4 := hy1.2
              omega

/-- C3 (amended): `add_offset` fixes the per-axis unit step signs once at
entry and the loop applies a step on every axis whose entry sign is nonzero,
regardless of the remaining distance on that axis.  Consequently (i) a call
that returns true has applied exactly the requested offset, leaving parts
and rotation untouched (so the offset `(0,0)` always returns true with the
location unchanged); and (ii) for offsets with a zero component or with
equal magnitudes on both axes — in particular every offset the game issues —
the call behaves exactly as the claim describes, modelled by
`add_offset_claim`.  For other offsets the smaller axis overshoots
(see the counterexample) and the call can only end in a collision abort. -/
theorem C3_add_offset_amended :
    (∀ (fuel : Nat) (b : Board) (p : Piece) (off : Point) (q : Piece),
      Piece.add_offset fuel b p off = some (q, true) →
      q.parts = p.parts ∧ q.rotation = p.rotation ∧
      q.location.x = p.location.x + off.x ∧ q.location.y = p.location.y + off.y) ∧
    (∀ (fuel : Nat) (b : Board) (p : Piece) (off : Point),
      (off.x = 0 ∨ off.y = 0 ∨ off.x.natAbs = off.y.natAbs) →
      Piece.add_offset fuel b p off = add_offset_claim fuel b p off) := by
  constructor
  · intro fuel b p off q hq
    exact add_offset_loop_true fuel b p ⟨sweep_sign off.x, sweep_sign off.y⟩ off q hq
  · intro fuel b p off hclass
    exact add_offset_loop_eq_claim fuel b p ⟨sweep_sign off.x, sweep_sign off.y⟩ off
      (Or.inr ⟨rfl, rfl, hclass⟩)

/-- C3 counterexample: on the empty board, the square piece at `(4,4)` asked
to move by `(1,2)` should, per the claim, consume the offset and return true
at `(5,6)` (the claimed algorithm `add_offset_claim` does exactly that); the
source's `add_offset` instead keeps stepping the already-consumed x axis,
sweeps to `(8,8)` and aborts on the right wall, returning false. -/
theorem C3_counterexample :
    Piece.add_offset 100 Board.initial ⟨[⟨0, 0⟩, ⟨0, 1⟩, ⟨1, 0⟩, ⟨1, 1⟩], ⟨4, 4⟩, 0⟩ ⟨1, 2⟩ =
      some (⟨[⟨0, 0⟩, ⟨0, 1⟩, ⟨1, 0⟩, ⟨1, 1⟩], ⟨8, 8⟩, 0⟩, false) ∧
    add_offset_claim 100 Board.initial ⟨[⟨0, 0⟩, ⟨0, 1⟩, ⟨1, 0⟩, ⟨1, 1⟩], ⟨4, 4⟩, 0⟩ ⟨1, 2⟩ =
      some (⟨[⟨0, 0⟩, ⟨0, 1⟩, ⟨1, 0⟩, ⟨1, 1⟩], ⟨5, 6⟩, 0⟩, true) :=
  ⟨by decide, by decide⟩

theorem C3_witness :
    ((⟨[⟨0, 0⟩], ⟨4, 3⟩, 0⟩ : Piece).parts = (⟨[⟨0, 0⟩], ⟨4, 4⟩, 0⟩ : Piece).parts ∧
      (⟨[⟨0, 0⟩], ⟨4, 3⟩, 0⟩ : Piece).rotation = (⟨[⟨0, 0⟩], ⟨4, 4⟩, 0⟩ : Piece).rotation ∧
      (⟨[⟨0, 0⟩], ⟨4, 3⟩, 0⟩ : Piece).location.x =
        (⟨[⟨0, 0⟩], ⟨4, 4⟩, 0⟩ : Piece).location.x + (0 : Int) ∧
      (⟨[⟨0, 0⟩], ⟨4, 3⟩, 0⟩ : Piece).location.y =
        (⟨[⟨0, 0⟩], ⟨4, 4⟩, 0⟩ : Piece).location.y + (-1 : Int)) ∧
    Piece.add_offset 4 Board.initial ⟨[⟨0, 0⟩], ⟨4, 4⟩, 0⟩ ⟨0, -1⟩ =
      add_offset_claim 4 Board.initial ⟨[⟨0, 0⟩], ⟨4, 4⟩, 0⟩ ⟨0, -1⟩ :=
  ⟨C3_add_offset_amended.1 4 Board.initial ⟨[⟨0, 0⟩], ⟨4, 4⟩, 0⟩ ⟨0, -1⟩
      ⟨[⟨0, 0⟩], ⟨4, 3⟩, 0⟩ (by decide),
   C3_add_offset_amended.2 4 Board.initial ⟨[⟨0, 0⟩], ⟨4, 4⟩, 0⟩ ⟨0, -1⟩ (Or.inl rfl)⟩

theorem axis_step_cases (b : Board) (p : Piece) (d : Point) (q : Piece) (ok : Bool)
    (h : axis_step b p d = some (q, ok)) :
    (ok = false ∧ q = p) ∨
    (ok = true ∧ q = { p with location := ⟨p.location.x + d.x, p.location.y + d.y⟩ }) := by
  cases ok with
  | false => exact Or.inl ⟨rfl, (axis_step_some b p d q false h).2 rfl⟩
  | true => exact Or.inr ⟨rfl, (axis_step_some b p d q true h).1 rfl⟩

theorem add_offset_loop_pres : ∀ (fuel : Nat) (b : Board) (p : Piece) (sweep off : Point)
    (q : Piece) (ok : Bool), add_offset_loop b fuel p sweep off = some (q, ok) →
    q.parts = p.parts ∧ q.rotation = p.rotation := by
  intro fuel
  induction fuel with
  | zero =>
    intro b p sweep off q ok hq
    exact absurd hq (by simp [add_offset_loop])
  | succ fuel ih =>
    intro b p sweep off q ok hq
    rw [add_offset_loop] at hq
    by_cases h0 : off.x = 0 ∧ off.y = 0
    · rw [if_pos h0] at hq
      have hpq : p = q := congrArg Prod.fst (Option.some_inj.mp hq)
      subst hpq
      exact ⟨rfl, rfl⟩
    · rw [if_neg h0] at hq
      rcases hx : (if sweep.x = 0 then some (p, off, true) else
          (axis_step b p ⟨sweep.x, 0⟩).map fun r =>
            (r.1, if r.2 then (⟨off.x - sweep.x, off.y⟩ : Point) else off, r.2)) with
        _ | ⟨p1, off1, ok1⟩
      · simp [hx] at hq
      · have hp1 : p1.parts = p.parts ∧ p1.rotation = p.rotation := by
          by_cases hsx : sweep.x = 0
          · rw [if_pos hsx] at hx
            simp only [Option.some.injEq, Prod.mk.injEq] at hx
            rw [← hx.1]
            exact ⟨rfl, rfl⟩
          · rw [if_neg hsx] at hx
            cases hstep : axis_step b p ⟨sweep.x, 0⟩ with
            | none => rw [hstep] at hx; simp at hx
            | some t =>
              obtain ⟨pp, ok⟩ := t
              rw [hstep] at hx
              simp only [Option.map_some', Option.some.injEq, Prod.mk.injEq] at hx
              rcases axis_step_cases b p ⟨sweep.x, 0⟩ pp ok hstep with ⟨-, hpp⟩ | ⟨-, hpp⟩ <;>
                rw [← hx.1, hpp] <;> exact ⟨rfl, rfl⟩
        cases ok1 with
        | false =>
          simp only [hx] at hq
          have : p1 = q := congrArg Prod.fst (Option.some_inj.mp hq)
          subst this
          exact hp1
        | true =>
          simp only [hx] at hq
          rcases hy : (if sweep.y = 0 then some (p1, off1, true) else
              (axis_step b p1 ⟨0, sweep.y⟩).map fun r =>
                (r.1, if r.2 then (⟨off1.x, off1.y - sweep.y⟩ : Point) else off1, r.2)) with
            _ | ⟨p2, off2, ok2⟩
          · simp [hy] at hq
          · have hp2 : p2.parts = p1.parts ∧ p2.rotation = p1.rotation := by
              by_cases hsy : sweep.y = 0
              · rw [if_pos hsy] at hy
                simp only [Option.some.injEq, Prod.mk.injEq] at hy
                rw [← hy.1]
                exact ⟨rfl, rfl⟩
              · rw [if_neg hsy] at hy
                cases hstep : axis_step b p1 ⟨0, sweep.y⟩ with
                | none => rw [hstep] at hy; simp at hy
                | some t =>
                  obtain ⟨pp, ok⟩ := t
                  rw [hstep] at hy
                  simp only [Option.map_some', Option.some.injEq, Prod.mk.injEq] at hy
                  rcases axis_step_cases b p1 ⟨0, sweep.y⟩ pp ok hstep with ⟨-, hpp⟩ | ⟨-, hpp⟩ <;>
                    rw [← hy.1, hpp] <;> exact ⟨rfl, rfl⟩
            cases ok2 with
            | false =>
              simp only [hy] at hq
              have : p2 = q := congrArg Prod.fst (Option.some_inj.mp hq)
              subst this
              exact ⟨hp2.1.trans hp1.1, hp2.2.trans hp1.2⟩
            | true =>
              simp only [hy] at hq
              obtain ⟨hqa, hqb⟩ := ih b p2 sweep off2 q ok hq
              exact ⟨hqa.trans (hp2.1.trans hp1.1), hqb.trans (hp2.2.trans hp1.2)⟩

theorem add_offset_pres (fuel : Nat) (b : Board) (p : Piece) (off : Point) (q : Piece)
    (ok : Bool) (h : Piece.add_offset fuel b p off = some (q, ok)) :
    q.parts = p.parts ∧ q.rotation = p.rotation :=
  add_offset_loop_pres fuel b p _ off q ok h

theorem add_offset_unit_down (fuel : Nat) (b : Board) (p : Piece) :
    Piece.add_offset (fuel + 1 + 1) b p ⟨0, -1⟩ = axis_step b p ⟨0, -1⟩ := by
  cases hstep : axis_step b p ⟨0, -1⟩ with
  | none => simp [Piece.add_offset, add_offset_loop, sweep_sign, hstep]
  | some r =>
    obtain ⟨q, ok⟩ := r
    cases ok with
    | false => simp [Piece.add_offset, add_offset_loop, sweep_sign, hstep]
    | true => simp [Piece.add_offset, add_offset_loop, sweep_sign, hstep]

theorem add_offset_unit_left (fuel : Nat) (b : Board) (p : Piece) :
    Piece.add_offset (fuel + 1 + 1) b p ⟨-1, 0⟩ = axis_step b p ⟨-1, 0⟩ := by
  cases hstep : axis_step b p ⟨-1, 0⟩ with
  | none => simp [Piece.add_offset, add_offset_loop, sweep_sign, hstep]
  | some r =>
    obtain ⟨q, ok⟩ := r
    cases ok with
    | false => simp [Piece.add_offset, add_offset_loop, sweep_sign, hstep]
    | true => simp [Piece.add_offset, add_offset_loop, sweep_sign, hstep]

theorem add_offset_unit_right (fuel : Nat) (b : Board) (p : Piece) :
    Piece.add_offset (fuel + 1 + 1) b p ⟨1, 0⟩ = axis_step b p ⟨1, 0⟩ := by
  cases hstep : axis_step b p ⟨1, 0⟩ with
  | none => simp [Piece.add_offset, add_offset_loop, sweep_sign, hstep]
  | some r =>
    obtain ⟨q, ok⟩ := r
    cases ok with
    | false => simp [Piece.add_offset, add_offset_loop, sweep_sign, hstep]
    | true => simp [Piece.add_offset, add_offset_loop, sweep_sign, hstep]

theorem add_offset_game_down (b : Board) (p : Piece) :
    Piece.add_offset gameFuel b p ⟨0, -1⟩ = axis_step b p ⟨0, -1⟩ :=
  add_offset_unit_down 2 b p

theorem add_offset_game_left (b : Board) (p : Piece) :
    Piece.add_offset gameFuel b p ⟨-1, 0⟩ = axis_step b p ⟨-1, 0⟩ :=
  add_offset_unit_left 2 b p

theorem add_offset_game_right (b : Board) (p : Piece) :
    Piece.add_offset gameFuel b p ⟨1, 0⟩ = axis_step b p ⟨1, 0⟩ :=
  add_offset_unit_right 2 b p

theorem rotate_wrap_range (r : Int) : 0 ≤ rotate_wrap r ∧ rotate_wrap r ≤ 3 := by
  unfold rotate_wrap
  by_cases h1 : r < 0
  · rw [if_pos h1]
    omega
  · rw [if_neg h1]
    by_cases h2 : r > 3
    · rw [if_pos h2]
      omega
    · rw [if_neg h2]
      omega

theorem handle_input_spec (b : Board) (inp : Input) (p q : Piece)
    (h : handle_input b inp p = some q) :
    q.parts = p.parts ∧
    p.location.y - 1 ≤ q.location.y ∧ q.location.y ≤ p.location.y ∧
    (inp.down = false → q.location.y = p.location.y) ∧
    ((inp.left = true ∨ inp.right = true) → q.rotation = p.rotation) ∧
    (0 ≤ p.rotation ∧ p.rotation ≤ 3 → 0 ≤ q.rotation ∧ q.rotation ≤ 3) := by
  unfold handle_input at h
  cases hD : (if inp.down then (Piece.add_offset gameFuel b p ⟨0, -1⟩).map Prod.fst
      else some p) with
  | none => rw [hD] at h; exact absurd h (by simp)
  | some p1 =>
    have hd : p1.parts = p.parts ∧ p1.rotation = p.rotation ∧
        p.location.y - 1 ≤ p1.location.y ∧ p1.location.y ≤ p.location.y ∧
        (inp.down = false → p1 = p) := by
      by_cases hdn : inp.down = true
      · rw [if_pos hdn] at hD
        rw [add_offset_game_down] at hD
        cases hstep : axis_step b p ⟨0, -1⟩ with
        | none => rw [hstep] at hD; exact absurd hD (by simp)
        | some r =>
          obtain ⟨pp, ok⟩ := r
          rw [hstep] at hD
          simp only [Option.map_some', Option.some.injEq] at hD
          subst hD
          rcases axis_step_cases b p ⟨0, -1⟩ pp ok hstep with ⟨-, hpp⟩ | ⟨-, hpp⟩
          · subst hpp
            exact ⟨rfl, rfl, by omega, by omega, fun hf => absurd (hdn.symm.trans hf) (by simp)⟩
          · subst hpp
            refine ⟨rfl, rfl, ?_, ?_, fun hf => absurd (hdn.symm.trans hf) (by simp)⟩
            · show p.location.y - 1 ≤ p.location.y + -1
              omega
            · show p.location.y + -1 ≤ p.location.y
              omega
      · rw [if_neg hdn] at hD
        have : p = p1 := Option.some_inj.mp hD
        subst this
        exact ⟨rfl, rfl, by omega, by omega, fun _ => rfl⟩
    simp only [hD] at h
    by_cases hl : inp.left = true
    · rw [hl] at h
      rw [if_pos rfl] at h
      rw [add_offset_game_left] at h
      cases hstep : axis_step b p1 ⟨-1, 0⟩ with
      | none => rw [hstep] at h; exact absurd h (by simp)
      | some r =>
        obtain ⟨pp, ok⟩ := r
        rw [hstep] at h
        simp only [Option.map_some', Option.some.injEq] at h
        subst h
        rcases axis_step_cases b p1 ⟨-1, 0⟩ pp ok hstep with ⟨-, hpp⟩ | ⟨-, hpp⟩
        · subst hpp
          refine ⟨hd.1, hd.2.2.1, hd.2.2.2.1, fun hf => ?_, fun _ => hd.2.1, fun hr => ?_⟩
          · rw [(hd.2.2.2.2 hf)]
          · rw [hd.2.1]
            exact hr
        · subst hpp
          refine ⟨hd.1, ?_, ?_, fun hf => ?_, fun _ => hd.2.1, fun hr => ?_⟩
          · show p.location.y - 1 ≤ p1.location.y + 0
            have := hd.2.2.1
            omega
          · show p1.location.y + 0 ≤ p.location.y
            have := hd.2.2.2.1
            omega
          · show p1.location.y + 0 = p.location.y
            rw [hd.2.2.2.2 hf]
            omega
          · rw [hd.2.1]
            exact hr
    · rw [Bool.not_eq_true] at hl
      rw [hl] at h
      rw [if_neg (by simp)] at h
      by_cases hr : inp.right = true
      · rw [hr] at h
        rw [if_pos rfl] at h
        rw [add_offset_game_right] at h
        cases hstep : axis_step b p1 ⟨1, 0⟩ with
        | none => rw [hstep] at h; exact absurd h (by simp)
        | some r =>
          obtain ⟨pp, ok⟩ := r
          rw [hstep] at h
          simp only [Option.map_some', Option.some.injEq] at h
          subst h
          rcases axis_step_cases b p1 ⟨1, 0⟩ pp ok hstep with ⟨-, hpp⟩ | ⟨-, hpp⟩
          · subst hpp
            refine ⟨hd.1, hd.2.2.1, hd.2.2.2.1, fun hf => ?_, fun _ => hd.2.1, fun hrot => ?_⟩
            · rw [(hd.2.2.2.2 hf)]
            · rw [hd.2.1]
              exact hrot
          · subst hpp
            refine ⟨hd.1, ?_, ?_, fun hf => ?_, fun _ => hd.2.1, fun hrot => ?_⟩
            · show p.location.y - 1 ≤ p1.location.y + 0
              have := hd.2.2.1
              omega
            · show p1.location.y + 0 ≤ p.location.y
              have := hd.2.2.2.1
              omega
            · show p1.location.y + 0 = p.location.y
              rw [hd.2.2.2.2 hf]
              omega
            · rw [hd.2.1]
              exact hrot
      · rw [Bool.not_eq_true] at hr
        rw [hr] at h
        rw [if_neg (by simp)] at h
        by_cases hu : inp.up = true
        · rw [hu] at h
          rw [if_pos rfl] at h
          cases hc : Piece.has_collision
              { p1 with rotation := rotate_wrap (p1.rotation + 1) } b with
          | none => rw [hc] at h; exact absurd h (by simp)
          | some c =>
            rw [hc] at h
            cases c with
            | true =>
              simp only [Option.some.injEq] at h
              subst h
              refine ⟨hd.1, hd.2.2.1, hd.2.2.2.1, fun hf => hd.2.2.2.2 hf ▸ rfl,
                fun hlr => ?_, fun _ => rotate_wrap_range _⟩
              rcases hlr with hx | hx
              · rw [hl] at hx; cases hx
              · rw [hr] at hx; cases hx
            | false =>
              simp only [Option.some.injEq] at h
              subst h
              refine ⟨hd.1, hd.2.2.1, hd.2.2.2.1, fun hf => hd.2.2.2.2 hf ▸ rfl,
                fun hlr => ?_, fun _ => rotate_wrap_range _⟩
              rcases hlr with hx | hx
              · rw [hl] at hx; cases hx
              · rw [hr] at hx; cases hx
        · rw [Bool.not_eq_true] at hu
          rw [hu] at h
          rw [if_neg (by simp)] at h
          have : p1 = q := Option.some_inj.mp h
          subst this
          refine ⟨hd.1, hd.2.2.1, hd.2.2.2.1, fun hf => by rw [hd.2.2.2.2 hf],
            fun _ => hd.2.1, fun hrot => ?_⟩
          rw [hd.2.1]
          exact hrot

theorem handle_input_left_priority (b : Board) (inp : Input) (p : Piece)
    (hl : inp.left = true) :
    handle_input b inp p = handle_input b ⟨inp.down, true, false, false⟩ p := by
  unfold handle_input
  simp [hl]

theorem handle_input_right_priority (b : Board) (inp : Input) (p : Piece)
    (hl : inp.left = false) (hr : inp.right = true) :
    handle_input b inp p = handle_input b ⟨inp.down, false, true, false⟩ p := by
  unfold handle_input
  simp [hl, hr]

/-- C7 (amended): on a falling tick each *pressed* control is consumed once,
but `left`, `right` and `rotate` are mutually exclusive (`else if` chain,
priority left over right over rotate): a held `move_down` attempts one unit
down-move whose result is discarded; when `left` is held, `right` and
`rotate` are ignored; when `right` (and not `left`) is held, `rotate` is
ignored — in particular a held `rotate` does not change the rotation while a
lateral key is held; and a failed down-hold never lands the piece — when the
timer-driven fall did not fail, the piece stays active whatever the input
did. -/
theorem C7_handle_input_amended :
    (∀ (b : Board) (inp : Input) (p : Piece), inp.left = true →
      handle_input b inp p = handle_input b ⟨inp.down, true, false, false⟩ p) ∧
    (∀ (b : Board) (inp : Input) (p : Piece), inp.left = false → inp.right = true →
      handle_input b inp p = handle_input b ⟨inp.down, false, true, false⟩ p) ∧
    (∀ (b : Board) (inp : Input) (p q : Piece),
      (inp.left = true ∨ inp.right = true) →
      handle_input b inp p = some q → q.rotation = p.rotation) ∧
    (∀ (dt : ℚ) (inp : Input) (st : GameState) (p p1 : Piece) (b1 : Board) (t1 : ℚ),
      st.player_piece = some p →
      st.board.stamp_values p false = some b1 →
      auto_fall b1 st.current_fall_time dt p = some (t1, p1, false) →
      ∀ st', tick_current_piece dt inp st = some st' →
        ∃ q, st'.player_piece = some q) := by
  refine ⟨handle_input_left_priority, handle_input_right_priority, ?_, ?_⟩
  · intro b inp p q hlr h
    exact (handle_input_spec b inp p q h).2.2.2.2.1 hlr
  · intro dt inp st p p1 b1 t1 hp hstamp hfall st' h
    unfold tick_current_piece at h
    simp only [hp] at h
    simp only [hstamp] at h
    simp only [hfall] at h
    cases hhi : handle_input b1 inp p1 with
    | none => simp [hhi] at h
    | some p2 =>
      simp only [hhi, Bool.false_eq_true, if_false] at h
      cases hb2 : b1.stamp_values p2 true with
      | none => simp [hb2] at h
      | some b2 =>
        simp only [hb2] at h
        cases hb3 : b2.stamp_values p2 false with
        | none => simp [hb3] at h
        | some b3 =>
          simp only [hb3] at h
          refine ⟨p2, ?_⟩
          rw [← Option.some_inj.mp h]

/-- C7 counterexample: with `left` and `rotate` both held, the code applies
only the left move and leaves rotation 0 (rotate is in the `else if` chain
behind left), while the claimed semantics (`handle_input_claim`, all four
controls applied) also rotates the piece to rotation 1. -/
theorem C7_counterexample :
    handle_input Board.initial ⟨false, true, false, true⟩
        ⟨[⟨0, 0⟩, ⟨0, 1⟩, ⟨0, 2⟩, ⟨0, 3⟩], ⟨4, 10⟩, 0⟩ =
      some ⟨[⟨0, 0⟩, ⟨0, 1⟩, ⟨0, 2⟩, ⟨0, 3⟩], ⟨3, 10⟩, 0⟩ ∧
    handle_input_claim Board.initial ⟨false, true, false, true⟩
        ⟨[⟨0, 0⟩, ⟨0, 1⟩, ⟨0, 2⟩, ⟨0, 3⟩], ⟨4, 10⟩, 0⟩ =
      some ⟨[⟨0, 0⟩, ⟨0, 1⟩, ⟨0, 2⟩, ⟨0, 3⟩], ⟨3, 10⟩, 1⟩ :=
  ⟨by decide, by decide⟩

theorem C7_witness :
    handle_input Board.initial ⟨true, true, false, true⟩ ⟨[⟨0, 0⟩], ⟨4, 10⟩, 0⟩ =
      handle_input Board.initial ⟨true, true, false, false⟩ ⟨[⟨0, 0⟩], ⟨4, 10⟩, 0⟩ :=
  C7_handle_input_amended.1 Board.initial ⟨true, true, false, true⟩ ⟨[⟨0, 0⟩], ⟨4, 10⟩, 0⟩ rfl

theorem auto_fall_not_fired (b : Board) (t dt : ℚ) (p : Piece)
    (h : ¬(t + dt > fall_delay)) :
    auto_fall b t dt p = some (t + dt, p, false) := by
  unfold auto_fall
  rw [if_neg h]

theorem auto_fall_spec (b : Board) (t dt : ℚ) (p : Piece) (t1 : ℚ) (p1 : Piece)
    (landed : Bool) (h : auto_fall b t dt p = some (t1, p1, landed)) :
    p1.parts = p.parts ∧ p1.rotation = p.rotation ∧
    p.location.y - 1 ≤ p1.location.y ∧ p1.location.y ≤ p.location.y ∧
    t1 ≤ fall_delay ∧ (landed = false → t1 ≤ t + dt) := by
  unfold auto_fall at h
  by_cases hf : t + dt > fall_delay
  · rw [if_pos hf] at h
    rw [add_offset_game_down] at h
    cases hstep : axis_step b p ⟨0, -1⟩ with
    | none => rw [hstep] at h; exact absurd h (by simp)
    | some r =>
      obtain ⟨pp, ok⟩ := r
      rw [hstep] at h
      simp only [Option.map_some', Option.some.injEq, Prod.mk.injEq] at h
      obtain ⟨ht1, hp1, -⟩ := h
      subst ht1
      subst hp1
      rcases axis_step_cases b p ⟨0, -1⟩ pp ok hstep with ⟨-, hpp⟩ | ⟨-, hpp⟩
      · subst hpp
        refine ⟨rfl, rfl, by omega, by omega, by norm_num [fall_delay], fun _ => ?_⟩
        have : (0 : ℚ) ≤ fall_delay := by norm_num [fall_delay]
        linarith
      · subst hpp
        refine ⟨rfl, rfl, ?_, ?_, by norm_num [fall_delay], fun _ => ?_⟩
        · show p.location.y - 1 ≤ p.location.y + -1
          omega
        · show p.location.y + -1 ≤ p.location.y
          omega
        · have : (0 : ℚ) ≤ fall_delay := by norm_num [fall_delay]
          linarith
  · rw [if_neg hf] at h
    simp only [Option.some.injEq, Prod.mk.injEq] at h
    obtain ⟨ht1, hp1, -⟩ := h
    subst ht1
    subst hp1
    exact ⟨rfl, rfl, by omega, by omega, by linarith [not_lt.mp hf], fun _ => le_refl _⟩

theorem spawn_loop_pres : ∀ (fuel : Nat) (b : Board) (p q : Piece),
    spawn_loop b fuel p = some q → q.parts = p.parts ∧ q.rotation = p.rotation := by
  intro fuel
  induction fuel with
  | zero => intro b p q h; exact absurd h (by simp [spawn_loop])
  | succ fuel ih =>
    intro b p q h
    rw [spawn_loop] at h
    cases hc : p.has_collision b with
    | none => simp [hc] at h
    | some c =>
      cases c with
      | true =>
        simp only [hc] at h
        exact ih b { p with location := ⟨p.location.x, p.location.y - 1⟩ } q h
      | false =>
        simp only [hc] at h
        have : p = q := Option.some_inj.mp h
        subst this
        exact ⟨rfl, rfl⟩

theorem catalog_rotation (k : Nat) :
    (piecesCatalog.getD k ⟨[], ⟨0, 0⟩, 0⟩).rotation = 0 := by
  rcases k with _ | _ | _ | _ | _ | k <;> rfl

theorem choose_new_piece_rotation (b : Board) (r : Nat) (q : Piece)
    (h : choose_new_piece b r = some q) : q.rotation = 0 := by
  unfold choose_new_piece at h
  have := (spawn_loop_pres spawnFuel b _ q h).2
  rw [this]
  exact catalog_rotation (r % 5)

theorem tick_new_piece_inv (r : Nat) (dt : ℚ) (st : GameState) (st' : GameState)
    (hinv : GameInv st) (h : tick_new_piece r dt st = some st') : GameInv st' := by
  unfold tick_new_piece at h
  by_cases ht : st.current_new_piece_time + dt > new_piece_delay
  · rw [if_pos ht] at h
    cases hc : choose_new_piece st.board r with
    | none => rw [hc] at h; exact absurd h (by simp)
    | some p =>
      rw [hc] at h
      simp only [Option.map_some', Option.some.injEq] at h
      subst h
      refine ⟨hinv.1, by norm_num [new_piece_delay], ?_⟩
      intro q hq
      have : p = q := Option.some_inj.mp hq
      subst this
      rw [choose_new_piece_rotation st.board r p hc]
      norm_num
  · rw [if_neg ht] at h
    rw [← Option.some_inj.mp h]
    exact ⟨hinv.1, not_lt.mp ht, hinv.2.2⟩

theorem tick_current_piece_inv (dt : ℚ) (inp : Input) (st : GameState) (st' : GameState)
    (hinv : GameInv st) (h : tick_current_piece dt inp st = some st') : GameInv st' := by
  unfold tick_current_piece at h
  cases hp : st.player_piece with
  | none => rw [hp] at h; exact absurd h (by simp)
  | some p =>
    simp only [hp] at h
    cases hb1 : st.board.stamp_values p false with
    | none => simp [hb1] at h
    | some b1 =>
      simp only [hb1] at h
      cases hfall : auto_fall b1 st.current_fall_time dt p with
      | none => simp [hfall] at h
      | some r =>
        obtain ⟨t1, p1, landed⟩ := r
        simp only [hfall] at h
        cases hhi : handle_input b1 inp p1 with
        | none => simp [hhi] at h
        | some p2 =>
          simp only [hhi] at h
          have hrot1 := (auto_fall_spec b1 st.current_fall_time dt p t1 p1 landed hfall).2.1
          have ht1 := (auto_fall_spec b1 st.current_fall_time dt p t1 p1 landed hfall).2.2.2.2.1
          have hrot2 := (handle_input_spec b1 inp p1 p2 hhi).2.2.2.2.2
          cases landed with
          | true =>
            simp only [if_pos rfl] at h
            cases hb2 : b1.stamp_values p2 true with
            | none => simp [hb2] at h
            | some b2 =>
              simp only [hb2] at h
              rw [← Option.some_inj.mp h]
              exact ⟨ht1, hinv.2.1, fun q hq => by simp at hq⟩
          | false =>
            simp only [Bool.false_eq_true, if_false] at h
            cases hb2 : b1.stamp_values p2 true with
            | none => simp [hb2] at h
            | some b2 =>
              simp only [hb2] at h
              cases hb3 : b2.stamp_values p2 false with
              | none => simp [hb3] at h
              | some b3 =>
                simp only [hb3] at h
                rw [← Option.some_inj.mp h]
                refine ⟨ht1, hinv.2.1, ?_⟩
                intro q hq
                have : p2 = q := Option.some_inj.mp hq
                subst this
                have hrange := hinv.2.2 p hp
                rw [← hrot1] at hrange
                exact hrot2 hrange

theorem reachable_inv : ∀ st, Reachable st → GameInv st := by
  intro st h
  induction h with
  | init r st0 hr =>
    unfold init_state at hr
    cases hc : choose_new_piece Board.initial r with
    | none => rw [hc] at hr; exact absurd hr (by simp)
    | some p =>
      rw [hc] at hr
      simp only [Option.map_some', Option.some.injEq] at hr
      subst hr
      refine ⟨by norm_num [fall_delay], by norm_num [new_piece_delay], ?_⟩
      intro q hq
      have : p = q := Option.some_inj.mp hq
      subst this
      rw [choose_new_piece_rotation Board.initial r p hc]
      norm_num
  | step st0 st1 dt inp r hreach htick ih =>
    unfold GameMode.tick at htick
    by_cases hover : st0.is_match_over = true
    · rw [if_pos hover] at htick
      rw [← Option.some_inj.mp htick]
      exact ih
    · rw [if_neg hover] at htick
      by_cases hend : can_end_match st0.board = true
      · rw [if_pos hend] at htick
        rw [← Option.some_inj.mp htick]
        exact ⟨ih.1, ih.2.1, ih.2.2⟩
      · rw [if_neg hend] at htick
        cases hp : st0.player_piece with
        | none =>
          rw [hp] at htick
          exact tick_new_piece_inv r dt st0 st1 ih htick
        | some p =>
          rw [hp] at htick
          refine tick_current_piece_inv dt inp _ st1 ?_ htick
          exact ⟨ih.1, ih.2.1, fun q hq => ih.2.2 q (hp.trans hq)⟩

theorem rotate_point_isSome (r : Int) (h0 : 0 ≤ r) (h3 : r ≤ 3) (q : Point) :
    (rotate_point r q).isSome = true := by
  unfold rotate_point
  interval_cases r <;> simp

theorem rotate_parts_isSome (r : Int) (l : List Point)
    (h : ∀ q : Point, (rotate_point r q).isSome = true) :
    (rotate_parts r l).isSome = true := by
  induction l with
  | nil => rfl
  | cons a t ih =>
    rw [rotate_parts]
    obtain ⟨v, hv⟩ := Option.isSome_iff_exists.mp (h a)
    obtain ⟨w, hw⟩ := Option.isSome_iff_exists.mp ih
    simp [hv, hw]

/-- C10: in every reachable game state the active piece's rotation stays in
0..3 — the wrap in the rotation input handler and the fresh rotation-0 copy
at every spawn keep it there — and consequently the fail-fast `default`
branch of `get_world_parts` (the `std::runtime_error`) is unreachable during
play: the active piece's world parts are always defined. -/
theorem C10_rotation_range (st : GameState) (h : Reachable st) (p : Piece)
    (hp : st.player_piece = some p) :
    (0 ≤ p.rotation ∧ p.rotation ≤ 3) ∧ (p.get_world_parts).isSome = true := by
  have hr := (reachable_inv st h).2.2 p hp
  refine ⟨hr, ?_⟩
  unfold Piece.get_world_parts
  rw [Option.isSome_map']
  exact rotate_parts_isSome p.rotation p.parts (rotate_point_isSome p.rotation hr.1 hr.2)

theorem C10_witness :
    ((0 : Int) ≤ (⟨[⟨0, 0⟩, ⟨0, 1⟩, ⟨1, 1⟩, ⟨0, 2⟩], ⟨5, 18⟩, 0⟩ : Piece).rotation ∧
      (⟨[⟨0, 0⟩, ⟨0, 1⟩, ⟨1, 1⟩, ⟨0, 2⟩], ⟨5, 18⟩, 0⟩ : Piece).rotation ≤ 3) ∧
    ((⟨[⟨0, 0⟩, ⟨0, 1⟩, ⟨1, 1⟩, ⟨0, 2⟩], ⟨5, 18⟩, 0⟩ : Piece).get_world_parts).isSome = true :=
  C10_rotation_range
    ⟨Board.initial, some ⟨[⟨0, 0⟩, ⟨0, 1⟩, ⟨1, 1⟩, ⟨0, 2⟩], ⟨5, 18⟩, 0⟩, 0, 0, false⟩
    (Reachable.init 0 _ (by decide)) _ rfl

/-- C8: for every reachable state, a tick with `dt = 0` makes no spawn
progress (a piece-less running tick returns the state unchanged — the spawn
timer does not fire) and no automatic fall progress (the fall timer does not
fire: `auto_fall` keeps the timer and the piece as they are for any board);
and for every `dt`, however large, a single tick lowers the still-active
piece by at most one timer-driven fall step plus at most one held-down input
step: the piece's `y` drops by at most 2, and by at most 1 when `move_down`
is not held — the timers never "catch up" several periods in one tick. -/
theorem C8_dt_behavior :
    (∀ (st : GameState) (inp : Input) (r : Nat), Reachable st →
      st.is_match_over = false → can_end_match st.board = false → st.player_piece = none →
      GameMode.tick st 0 inp r = some st) ∧
    (∀ (st : GameState) (p : Piece) (b : Board), Reachable st →
      st.player_piece = some p →
      auto_fall b st.current_fall_time 0 p = some (st.current_fall_time, p, false)) ∧
    (∀ (st : GameState) (dt : ℚ) (inp : Input) (r : Nat) (st' : GameState) (p p' : Piece),
      GameMode.tick st dt inp r = some st' →
      st.player_piece = some p → st'.player_piece = some p' →
      p.location.y - 2 ≤ p'.location.y ∧
      (inp.down = false → p.location.y - 1 ≤ p'.location.y)) := by
  refine ⟨?_, ?_, ?_⟩
  · intro st inp r hreach hover hend hp
    have hinv := reachable_inv st hreach
    unfold GameMode.tick
    rw [if_neg (by rw [hover]; exact Bool.false_ne_true), if_neg (by rw [hend]; exact Bool.false_ne_true)]
    rw [hp]
    show tick_new_piece r 0 st = some st
    unfold tick_new_piece
    rw [if_neg (by rw [add_zero]; exact not_lt.mpr hinv.2.1)]
    rw [add_zero]
  · intro st p b hreach hp
    have hinv := reachable_inv st hreach
    rw [auto_fall_not_fired b st.current_fall_time 0 p
      (by rw [add_zero]; exact not_lt.mpr hinv.1)]
    rw [add_zero]
  · intro st dt inp r st' p p' htick hp hp'
    unfold GameMode.tick at htick
    by_cases hover : st.is_match_over = true
    · rw [if_pos hover] at htick
      have hst : st = st' := Option.some_inj.mp htick
      subst hst
      have : p = p' := Option.some_inj.mp (hp.symm.trans hp')
      subst this
      exact ⟨by omega, fun _ => by omega⟩
    · rw [if_neg hover] at htick
      by_cases hend : can_end_match st.board = true
      · rw [if_pos hend] at htick
        rw [← Option.some_inj.mp htick] at hp'
        have : p = p' := Option.some_inj.mp (hp.symm.trans hp')
        subst this
        exact ⟨by omega, fun _ => by omega⟩
      · rw [if_neg hend] at htick
        rw [hp] at htick
        unfold tick_current_piece at htick
        simp only [] at htick
        cases hb1 : ({ st with board := (st.board.try_eliminate_rows).1 } :
            GameState).board.stamp_values p false with
        | none => simp [hb1] at htick
        | some b1 =>
          simp only [hb1] at htick
          cases hfall : auto_fall b1 st.current_fall_time dt p with
          | none => simp [hfall] at htick
          | some rr =>
            obtain ⟨t1, p1, landed⟩ := rr
            simp only [hfall] at htick
            cases hhi : handle_input b1 inp p1 with
            | none => simp [hhi] at htick
            | some p2 =>
              simp only [hhi] at htick
              have hf := auto_fall_spec b1 st.current_fall_time dt p t1 p1 landed hfall
              have hh := handle_input_spec b1 inp p1 p2 hhi
              cases landed with
              | true =>
                simp only [if_pos rfl] at htick
                cases hb2 : b1.stamp_values p2 true with
                | none => simp [hb2] at htick
                | some b2 =>
                  simp only [hb2] at htick
                  rw [← Option.some_inj.mp htick] at hp'
                  exact absurd hp' (by simp)
              | false =>
                simp only [Bool.false_eq_true, if_false] at htick
                cases hb2 : b1.stamp_values p2 true with
                | none => simp [hb2] at htick
                | some b2 =>
                  simp only [hb2] at htick
                  cases hb3 : b2.stamp_values p2 false with
                  | none => simp [hb3] at htick
                  | some b3 =>
                    simp only [hb3] at htick
                    rw [← Option.some_inj.mp htick] at hp'
                    have : p2 = p' := Option.some_inj.mp hp'
                    subst this
                    constructor
                    · have h1 := hf.2.2.1
                      have h2 := hh.2.1
                      omega
                    · intro hdn
                      have h1 := hf.2.2.1
                      have h2 := hh.2.2.2.1 hdn
                      omega

theorem C8_witness :
    auto_fall Board.initial (0 : ℚ) 0 ⟨[⟨0, 0⟩, ⟨0, 1⟩, ⟨1, 1⟩, ⟨0, 2⟩], ⟨5, 18⟩, 0⟩ =
      some (0, ⟨[⟨0, 0⟩, ⟨0, 1⟩, ⟨1, 1⟩, ⟨0, 2⟩], ⟨5, 18⟩, 0⟩, false) ∧
    ((⟨[⟨0, 0⟩], ⟨4, 18⟩, 0⟩ : Piece).location.y - 2 ≤
        (⟨[⟨0, 0⟩], ⟨4, 18⟩, 0⟩ : Piece).location.y ∧
      ((⟨false, false, false, false⟩ : Input).down = false →
        (⟨[⟨0, 0⟩], ⟨4, 18⟩, 0⟩ : Piece).location.y - 1 ≤
          (⟨[⟨0, 0⟩], ⟨4, 18⟩, 0⟩ : Piece).location.y)) :=
  ⟨C8_dt_behavior.2.1
      ⟨Board.initial, some ⟨[⟨0, 0⟩, ⟨0, 1⟩, ⟨1, 1⟩, ⟨0, 2⟩], ⟨5, 18⟩, 0⟩, 0, 0, false⟩
      ⟨[⟨0, 0⟩, ⟨0, 1⟩, ⟨1, 1⟩, ⟨0, 2⟩], ⟨5, 18⟩, 0⟩ Board.initial
      (Reachable.init 0 _ (by decide)) rfl,
   C8_dt_behavior.2.2
      ⟨Board.initial, some ⟨[⟨0, 0⟩], ⟨4, 18⟩, 0⟩, 0, 0, true⟩ 0
      ⟨false, false, false, false⟩ 0
      ⟨Board.initial, some ⟨[⟨0, 0⟩], ⟨4, 18⟩, 0⟩, 0, 0, true⟩
      ⟨[⟨0, 0⟩], ⟨4, 18⟩, 0⟩ ⟨[⟨0, 0⟩], ⟨4, 18⟩, 0⟩
      (by decide) rfl rfl⟩

theorem set_false_pres (b : Board) (q loc : Point)
    (h : (b.get_value_at loc).getD false = false) :
    ((((b.set_value_at q false).1)).get_value_at loc).getD false = false := by
  unfold Board.set_value_at
  by_cases hq : Board.location_to_index q < b.data.length
  · rw [if_pos hq]
    unfold Board.get_value_at at h ⊢
    show ((b.data.set (Board.location_to_index q) false)[Board.location_to_index loc]?).getD
        false = false
    rw [List.getElem?_set]
    by_cases heq : Board.location_to_index q = Board.location_to_index loc
    · rw [if_pos heq, if_pos (heq ▸ hq)]
      rfl
    · rw [if_neg heq]
      exact h
  · rw [if_neg hq]
    exact h

theorem set_false_self (b : Board) (loc : Point) :
    ((((b.set_value_at loc false).1)).get_value_at loc).getD false = false := by
  unfold Board.set_value_at
  by_cases hq : Board.location_to_index loc < b.data.length
  · rw [if_pos hq]
    unfold Board.get_value_at
    show ((b.data.set (Board.location_to_index loc) false)[Board.location_to_index loc]?).getD
        false = false
    rw [List.getElem?_set_self hq]
    rfl
  · rw [if_neg hq]
    show ((b.get_value_at loc)).getD false = false
    unfold Board.get_value_at
    rw [List.getElem?_eq_none (by omega)]
    rfl

theorem set_false_fold_pres (ps : List Point) (b : Board) (loc : Point)
    (h : (b.get_value_at loc).getD false = false) :
    (((ps.foldl (fun bb q => (bb.set_value_at q false).1) b)).get_value_at loc).getD
      false = false := by
  induction ps generalizing b with
  | nil => exact h
  | cons q rest ih => exact ih ((b.set_value_at q false).1) (set_false_pres b q loc h)

theorem set_false_fold_getD (ps : List Point) (b : Board) (loc : Point) (hmem : loc ∈ ps) :
    (((ps.foldl (fun bb q => (bb.set_value_at q false).1) b)).get_value_at loc).getD
      false = false := by
  induction ps generalizing b with
  | nil => cases hmem
  | cons q rest ih =>
    rcases List.mem_cons.mp hmem with hqe | hmem2
    · subst hqe
      exact set_false_fold_pres rest ((b.set_value_at loc false).1) loc (set_false_self b loc)
    · exact ih ((b.set_value_at q false).1) hmem2

theorem stamp_values_eq (b : Board) (p : Piece) (v : Bool) (b2 : Board)
    (h : b.stamp_values p v = some b2) :
    ∃ parts, p.get_world_parts = some parts ∧
      b2 = parts.foldl (fun bb q => (bb.set_value_at q v).1) b := by
  unfold Board.stamp_values at h
  cases hw : p.get_world_parts with
  | none => rw [hw] at h; exact absurd h (by simp)
  | some parts =>
    rw [hw] at h
    simp only [Option.map_some', Option.some.injEq] at h
    exact ⟨parts, rfl, h.symm⟩

/-- C9 (amended): in a tick where the piece lands (the timer-driven fall
move failed), its final — possibly input-moved — footprint is stamped true
on the board and the active piece is cleared.  In a tick where the piece
does not land, its footprint is stamped true for the mid-tick render and
then immediately stamped false again, so the board at the *end* of the tick
does not contain the falling piece's cells (every world cell of the active
piece reads unoccupied); the piece stays active and its position lives in
the game state, not on the board. -/
theorem C9_stamp_amended (dt : ℚ) (inp : Input) (st : GameState) (p : Piece)
    (st' : GameState) (hp : st.player_piece = some p)
    (h : tick_current_piece dt inp st = some st') :
    ∃ b1 t1 p1 landed p2,
      st.board.stamp_values p false = some b1 ∧
      auto_fall b1 st.current_fall_time dt p = some (t1, p1, landed) ∧
      handle_input b1 inp p1 = some p2 ∧
      st'.current_fall_time = t1 ∧
      (landed = true → st'.player_piece = none ∧
        b1.stamp_values p2 true = some st'.board) ∧
      (landed = false → st'.player_piece = some p2 ∧
        (∃ b2, b1.stamp_values p2 true = some b2 ∧
          b2.stamp_values p2 false = some st'.board) ∧
        ∃ parts, p2.get_world_parts = some parts ∧
          ∀ loc ∈ parts, (st'.board.get_value_at loc).getD false = false) := by
  unfold tick_current_piece at h
  simp only [hp] at h
  cases hb1 : st.board.stamp_values p false with
  | none => simp [hb1] at h
  | some b1 =>
    simp only [hb1] at h
    cases hfall : auto_fall b1 st.current_fall_time dt p with
    | none => simp [hfall] at h
    | some r =>
      obtain ⟨t1, p1, landed⟩ := r
      simp only [hfall] at h
      cases hhi : handle_input b1 inp p1 with
      | none => simp [hhi] at h
      | some p2 =>
        simp only [hhi] at h
        refine ⟨b1, t1, p1, landed, p2, by simp [hb1], by simp [hfall], by simp [hhi], ?_⟩
        cases landed with
        | true =>
          simp only [if_pos rfl] at h
          cases hb2 : b1.stamp_values p2 true with
          | none => simp [hb2] at h
          | some b2 =>
            simp only [hb2] at h
            obtain rfl := Option.some_inj.mp h
            exact ⟨rfl, fun _ => ⟨rfl, by simp [hb2]⟩, fun hf => absurd hf (by simp)⟩
        | false =>
          simp only [Bool.false_eq_true, if_false] at h
          cases hb2 : b1.stamp_values p2 true with
          | none => simp [hb2] at h
          | some b2 =>
            simp only [hb2] at h
            cases hb3 : b2.stamp_values p2 false with
            | none => simp [hb3] at h
            | some b3 =>
              simp only [hb3] at h
              obtain rfl := Option.some_inj.mp h
              refine ⟨rfl, fun hf => absurd hf (by simp),
                fun _ => ⟨rfl, ⟨b2, by simp [hb2], by simp [hb3]⟩, ?_⟩⟩
              obtain ⟨parts, hw, hfold⟩ := stamp_values_eq b2 p2 false b3 hb3
              refine ⟨parts, hw, fun loc hloc => ?_⟩
              show ((b3.get_value_at loc)).getD false = false
              rw [hfold]
              exact set_false_fold_getD parts b2 loc hloc

/-- C9 counterexample: a non-landing tick (dt = 0, no input) of a one-cell
piece at `(4,4)` on the empty board ends with the piece still active at
`(4,4)` but with the board cell `(4,4)` unoccupied: the footprint was
stamped true only transiently for the renderer and stamped false again, so
the board state after the tick does not reflect the piece's position. -/
theorem C9_counterexample :
    (tick_current_piece 0 ⟨false, false, false, false⟩
        ⟨Board.initial, some ⟨[⟨0, 0⟩], ⟨4, 4⟩, 0⟩, 0, 0, false⟩).map
        (fun s => (s.player_piece, (s.board.get_value_at ⟨4, 4⟩).getD false)) =
      some (some ⟨[⟨0, 0⟩], ⟨4, 4⟩, 0⟩, false) := by
  unfold tick_current_piece
  simp only [show Board.initial.stamp_values ⟨[⟨0, 0⟩], ⟨4, 4⟩, 0⟩ false = some Board.initial
    from by decide]
  simp only [auto_fall_not_fired Board.initial 0 0 ⟨[⟨0, 0⟩], ⟨4, 4⟩, 0⟩
    (by norm_num [fall_delay])]
  simp only [show handle_input Board.initial ⟨false, false, false, false⟩
      ⟨[⟨0, 0⟩], ⟨4, 4⟩, 0⟩ = some ⟨[⟨0, 0⟩], ⟨4, 4⟩, 0⟩ from by decide]
  simp only [Bool.false_eq_true, if_false]
  simp only [show Board.initial.stamp_values ⟨[⟨0, 0⟩], ⟨4, 4⟩, 0⟩ true =
      some ⟨(List.replicate (10 * 21) false).set 44 true⟩ from by decide]
  simp only [show (⟨(List.replicate (10 * 21) false).set 44 true⟩ : Board).stamp_values
      ⟨[⟨0, 0⟩], ⟨4, 4⟩, 0⟩ false = some Board.initial from by decide]
  simp only [Option.map_some']
  decide

theorem c9_landing_eval :
    tick_current_piece 1 ⟨false, false, false, false⟩
        ⟨Board.initial, some ⟨[⟨0, 0⟩], ⟨4, 0⟩, 0⟩, 1, 0, false⟩ =
      some ⟨⟨(List.replicate (10 * 21) false).set 4 true⟩, none, 0, 0, false⟩ := by
  unfold tick_current_piece
  simp only [show Board.initial.stamp_values ⟨[⟨0, 0⟩], ⟨4, 0⟩, 0⟩ false = some Board.initial
    from by decide]
  have hfired : auto_fall Board.initial 1 1 ⟨[⟨0, 0⟩], ⟨4, 0⟩, 0⟩ =
      some (0, ⟨[⟨0, 0⟩], ⟨4, 0⟩, 0⟩, true) := by
    unfold auto_fall
    rw [if_pos (show (1 : ℚ) + 1 > fall_delay by norm_num [fall_delay])]
    rw [add_offset_game_down]
    rw [show axis_step Board.initial ⟨[⟨0, 0⟩], ⟨4, 0⟩, 0⟩ ⟨0, -1⟩ =
      some (⟨[⟨0, 0⟩], ⟨4, 0⟩, 0⟩, false) from by decide]
    rfl
  simp only [hfired]
  simp only [show handle_input Board.initial ⟨false, false, false, false⟩
      ⟨[⟨0, 0⟩], ⟨4, 0⟩, 0⟩ = some ⟨[⟨0, 0⟩], ⟨4, 0⟩, 0⟩ from by decide]
  simp only [show Board.initial.stamp_values ⟨[⟨0, 0⟩], ⟨4, 0⟩, 0⟩ true =
      some ⟨(List.replicate (10 * 21) false).set 4 true⟩ from by decide]
  rfl

theorem C9_witness :
    ∃ b1 t1 p1 landed p2,
      Board.initial.stamp_values ⟨[⟨0, 0⟩], ⟨4, 0⟩, 0⟩ false = some b1 ∧
      auto_fall b1 1 1 ⟨[⟨0, 0⟩], ⟨4, 0⟩, 0⟩ = some (t1, p1, landed) ∧
      handle_input b1 ⟨false, false, false, false⟩ p1 = some p2 ∧
      (0 : ℚ) = t1 ∧
      (landed = true → (none : Option Piece) = none ∧
        b1.stamp_values p2 true = some ⟨(List.replicate (10 * 21) false).set 4 true⟩) ∧
      (landed = false → (none : Option Piece) = some p2 ∧
        (∃ b2, b1.stamp_values p2 true = some b2 ∧
          b2.stamp_values p2 false = some ⟨(List.replicate (10 * 21) false).set 4 true⟩) ∧
        ∃ parts, p2.get_world_parts = some parts ∧
          ∀ loc ∈ parts,
            (((⟨(List.replicate (10 * 21) false).set 4 true⟩ : Board)).get_value_at loc).getD
              false = false) :=
  C9_stamp_amended 1 ⟨false, false, false, false⟩
    ⟨Board.initial, some ⟨[⟨0, 0⟩], ⟨4, 0⟩, 0⟩, 1, 0, false⟩ ⟨[⟨0, 0⟩], ⟨4, 0⟩, 0⟩
    ⟨⟨(List.replicate (10 * 21) false).set 4 true⟩, none, 0, 0, false⟩ rfl c9_landing_eval
